import Mathlib

/-!
# Vwap.H: wire field codec, live order book and execution ledger

A shallow embedding of `src/Vwap.H` (namespace `trex`).

* A byte cursor `const char*` is the list of bytes from the cursor to the end of
  the buffer; `msg_start + k` is `msg.drop k`.  A read that needs more bytes
  than the buffer holds is undefined behaviour in the source and is `none` here.
* The host is little-endian (the source's own comment: "network order->little
  endian"): a `uintN_t` load of bytes `b0 b1 ...` yields `b0 + 256 * b1 + ...`,
  and `__builtin_bswapN` reverses the bytes of that word.
* `uint16_t`/`uint32_t`/`uint64_t` values are natural numbers; arithmetic that
  can wrap carries an explicit `% 2 ^ w`.
* The globals `CURRTIME`, `LASTPRINTED`, `END`, `attributedBuyOrders`,
  `stockSymbols`, `allBuyOrders` are the fields of `State`; every handler is a
  function `State → List Byte → Option State`.
* `std::unordered_map<OrderId, Order>` is a finite map seen through its lookup
  function `OrderId → Option Order`; `std::array<_, 1 << 16>` is a function of
  the index.
-/

namespace trex

/-- One octet of the wire buffer. -/
abbrev Byte := Fin 256

abbrev OrderId := Nat
abbrev LocateId := Nat

/-- Hour in nanoseconds (`HOUR`). -/
def HOUR : Nat := 3600000000000

/-! ## Wire field codec -/

/-- Value of a `uintN_t` load from the cursor on a little-endian host:
the first byte is the least significant. -/
def loadLE : List Byte → Nat
  | [] => 0
  | b :: bs => b.val + 256 * loadLE bs

/-- Byte `i` (counted from the least significant) of the word `x`. -/
def byteOf (x i : Nat) : Nat := x / 256 ^ i % 256

/-- The builtin `__builtin_bswap16`. -/
def bswap16 (x : Nat) : Nat :=
  byteOf x 0 * 256 + byteOf x 1

/-- The builtin `__builtin_bswap32`. -/
def bswap32 (x : Nat) : Nat :=
  byteOf x 0 * 256 ^ 3 + byteOf x 1 * 256 ^ 2 + byteOf x 2 * 256 + byteOf x 3

/-- The builtin `__builtin_bswap64`. -/
def bswap64 (x : Nat) : Nat :=
  byteOf x 0 * 256 ^ 7 + byteOf x 1 * 256 ^ 6 + byteOf x 2 * 256 ^ 5 + byteOf x 3 * 256 ^ 4
    + byteOf x 4 * 256 ^ 3 + byteOf x 5 * 256 ^ 2 + byteOf x 6 * 256 + byteOf x 7

/-- The constant `((1L << 48) - 1) << 16` of `reinterpret6bytes`, converted to
`uint64_t` for the bitwise and. -/
def mask6 : Nat := (((1 <<< 48) - 1) <<< 16) % 2 ^ 64

def reinterpret8bytes (w : List Byte) : Option Nat :=
  if 8 ≤ w.length then some (bswap64 (loadLE (w.take 8))) else none

def reinterpret6bytes (w : List Byte) : Option Nat :=
  if 8 ≤ w.length then some ((bswap64 (loadLE (w.take 8)) &&& mask6) >>> 16) else none

def reinterpret4bytes (w : List Byte) : Option Nat :=
  if 4 ≤ w.length then some (bswap32 (loadLE (w.take 4))) else none

def reinterpret2bytes (w : List Byte) : Option Nat :=
  if 2 ≤ w.length then some (bswap16 (loadLE (w.take 2))) else none

/-- Reference decoding: the unsigned big-endian value of a byte string
(first byte most significant). -/
def beValue (bs : List Byte) : Nat :=
  bs.foldl (fun acc b => acc * 256 + b.val) 0

/-- Reference encoding: the `n`-byte big-endian encoding of `v`. -/
def encodeBE : Nat → Nat → List Byte
  | 0, _ => []
  | n + 1, v => Fin.ofNat (v / 256 ^ n) :: encodeBE n v

/-- The `n`-byte big-endian field at offset `off` of a message. -/
def field (msg : List Byte) (off n : Nat) : Nat :=
  beValue ((msg.drop off).take n)

/-! ## Session state -/

/-- Order structure holding price, qty and locate id of security. -/
structure Order where
  /-- Field of type `price_t`, a `uint32_t`. -/
  _price : Nat
  /-- Field of type `qty_t`, a `uint32_t`. -/
  _qty : Nat
  /-- Field of type `LocateId`, a `uint16_t`. -/
  _id : Nat
deriving DecidableEq, Repr

/-- The globals of `Vwap.H`. -/
structure State where
  CURRTIME : Nat
  LASTPRINTED : Nat
  END : Bool
  attributedBuyOrders : LocateId → List Order
  stockSymbols : LocateId → List Byte
  allBuyOrders : OrderId → Option Order

/-- The state after static initialisation: `CURRTIME = 0`,
`LASTPRINTED = HOUR * 3`, `END = false`, empty containers. -/
def State.init : State where
  CURRTIME := 0
  LASTPRINTED := HOUR * 3
  END := false
  attributedBuyOrders := fun _ => []
  stockSymbols := fun _ => []
  allBuyOrders := fun _ => none

/-- The call `unordered_map::erase` (by key or by iterator to that key). -/
def erase (m : OrderId → Option Order) (k : OrderId) : OrderId → Option Order :=
  fun j => if j = k then none else m j

/-- The call `unordered_map::emplace`: inserts only when the key is not
already present; an existing element is left as it is. -/
def emplace (m : OrderId → Option Order) (k : OrderId) (o : Order) :
    OrderId → Option Order :=
  fun j => if j = k then (match m k with
    | some old => some old
    | none => some o) else m j

/-- A write through the iterator returned by `find`: the element stored
under key `k` becomes `o`. -/
def assign (m : OrderId → Option Order) (k : OrderId) (o : Order) :
    OrderId → Option Order :=
  fun j => if j = k then some o else m j

/-- The statement `attributedBuyOrders[l].push_back(o)`. -/
def push_back (a : LocateId → List Order) (l : LocateId) (o : Order) :
    LocateId → List Order :=
  fun j => if j = l then a j ++ [o] else a j

/-- The statement `a[l] = v` on a `std::array`. -/
def setAt {α : Type} (a : LocateId → α) (l : LocateId) (v : α) : LocateId → α :=
  fun j => if j = l then v else a j

/-- Subtraction of `uint32_t` values (`-=` on `qty_t`): modulo `2 ^ 32`. -/
def sub32 (a b : Nat) : Nat := (a + (2 ^ 32 - b % 2 ^ 32)) % 2 ^ 32

/-- Number of records held by all `1 << 16` ledgers. -/
def totalRecords (s : State) : Nat :=
  ∑ l in Finset.range (2 ^ 16), (s.attributedBuyOrders l).length

/-! ## Message handlers -/

def systemMsg (s : State) (msg_start : List Byte) : Option State := do
  let t ← reinterpret6bytes (msg_start.drop 5)
  let c ← msg_start[11]?
  if c = 69 then
    pure { s with CURRTIME := t, END := true }
  else
    pure { s with CURRTIME := t }

def stockRelatedMsg (s : State) (msg_start : List Byte) : Option State := do
  let locateId ← reinterpret2bytes (msg_start.drop 1)
  let symbol ← if 8 ≤ (msg_start.drop 11).length then some ((msg_start.drop 11).take 8) else none
  pure { s with
    stockSymbols := setAt s.stockSymbols locateId symbol
    attributedBuyOrders := setAt s.attributedBuyOrders locateId [] }

def addOrder (s : State) (msg_start : List Byte) : Option State := do
  let locateId ← reinterpret2bytes (msg_start.drop 1)
  let t ← reinterpret6bytes (msg_start.drop 5)
  let orderId ← reinterpret8bytes (msg_start.drop 11)
  let side ← msg_start[19]?
  if side = 66 then
    let price ← reinterpret4bytes (msg_start.drop 32)
    let qty ← reinterpret4bytes (msg_start.drop 20)
    pure { s with
      CURRTIME := t
      allBuyOrders := emplace s.allBuyOrders orderId ⟨price, qty, locateId⟩ }
  else
    pure { s with CURRTIME := t }

def orderExec (s : State) (msg_start : List Byte) : Option State := do
  let locateId ← reinterpret2bytes (msg_start.drop 1)
  let t ← reinterpret6bytes (msg_start.drop 5)
  let orderId ← reinterpret8bytes (msg_start.drop 11)
  let qty ← reinterpret4bytes (msg_start.drop 19)
  match s.allBuyOrders orderId with
  | none => pure { s with CURRTIME := t }
  | some o =>
    let price := o._price
    let book :=
      if qty = o._qty then erase s.allBuyOrders orderId
      else assign s.allBuyOrders orderId { o with _qty := sub32 o._qty qty }
    pure { s with
      CURRTIME := t
      allBuyOrders := book
      attributedBuyOrders := push_back s.attributedBuyOrders locateId ⟨price, qty, locateId⟩ }

def orderExecPrice (s : State) (msg_start : List Byte) : Option State := do
  let locateId ← reinterpret2bytes (msg_start.drop 1)
  let t ← reinterpret6bytes (msg_start.drop 5)
  let orderId ← reinterpret8bytes (msg_start.drop 11)
  let qty ← reinterpret4bytes (msg_start.drop 19)
  let price ← reinterpret4bytes (msg_start.drop 32)
  match s.allBuyOrders orderId with
  | none => pure { s with CURRTIME := t }
  | some o =>
    let book :=
      if qty = o._qty then erase s.allBuyOrders orderId
      else assign s.allBuyOrders orderId { o with _qty := sub32 o._qty qty }
    pure { s with
      CURRTIME := t
      allBuyOrders := book
      attributedBuyOrders := push_back s.attributedBuyOrders locateId ⟨price, qty, locateId⟩ }

def orderCancel (s : State) (msg_start : List Byte) : Option State := do
  let orderId ← reinterpret8bytes (msg_start.drop 11)
  let cancelledQty ← reinterpret4bytes (msg_start.drop 19)
  match s.allBuyOrders orderId with
  | none => pure s
  | some o =>
    let o1 : Order := { o with _qty := sub32 o._qty cancelledQty }
    let book := assign s.allBuyOrders orderId o1
    if o1._qty = 0 then
      pure { s with allBuyOrders := erase book orderId }
    else
      pure { s with allBuyOrders := book }

def orderDelete (s : State) (msg_start : List Byte) : Option State := do
  let orderId ← reinterpret8bytes (msg_start.drop 11)
  pure { s with allBuyOrders := erase s.allBuyOrders orderId }

def orderReplace (s : State) (msg_start : List Byte) : Option State := do
  let locateId ← reinterpret2bytes (msg_start.drop 1)
  let oldId ← reinterpret8bytes (msg_start.drop 11)
  let newId ← reinterpret8bytes (msg_start.drop 19)
  let newQty ← reinterpret4bytes (msg_start.drop 27)
  let newPrice ← reinterpret4bytes (msg_start.drop 31)
  match s.allBuyOrders oldId with
  | none => pure s
  | some _ =>
    pure { s with
      allBuyOrders := emplace (erase s.allBuyOrders oldId) newId ⟨newPrice, newQty, locateId⟩ }

def nonCrossTrade (s : State) (_msg_start : List Byte) : Option State := pure s

def crossTrade (s : State) (_msg_start : List Byte) : Option State := pure s

def brokenTrade (s : State) (_msg_start : List Byte) : Option State := pure s

/-! ## Messages used in the worked examples

Byte layouts of the wire format: a type byte at offset 0, locate at 1, tracking
number at 3, timestamp at 5, then the fields of each message kind. -/

/-- Header shared by all messages: type byte, locate, tracking number, timestamp. -/
def header (type : Byte) (locate ts : Nat) : List Byte :=
  [type] ++ encodeBE 2 locate ++ encodeBE 2 0 ++ encodeBE 6 ts

/-- Add order: order id at 11, side at 19, quantity at 20, stock at 24, price at 32. -/
def addMsg (locate ts id : Nat) (side : Byte) (qty price : Nat) : List Byte :=
  header 65 locate ts ++ encodeBE 8 id ++ [side] ++ encodeBE 4 qty ++ encodeBE 8 0
    ++ encodeBE 4 price

/-- Order executed: order id at 11, executed quantity at 19, match number at 23. -/
def execMsg (locate ts id qty : Nat) : List Byte :=
  header 69 locate ts ++ encodeBE 8 id ++ encodeBE 4 qty ++ encodeBE 8 0

/-- Order executed with price: as `execMsg`, then printable flag at 31 and
execution price at 32. -/
def execPriceMsg (locate ts id qty price : Nat) : List Byte :=
  header 67 locate ts ++ encodeBE 8 id ++ encodeBE 4 qty ++ encodeBE 8 0 ++ [89]
    ++ encodeBE 4 price

/-- Order cancel: order id at 11, cancelled quantity at 19. -/
def cancelMsg (locate ts id qty : Nat) : List Byte :=
  header 88 locate ts ++ encodeBE 8 id ++ encodeBE 4 qty

/-- Order delete: order id at 11. -/
def deleteMsg (locate ts id : Nat) : List Byte :=
  header 68 locate ts ++ encodeBE 8 id

/-- Order replace: old id at 11, new id at 19, quantity at 27, price at 31. -/
def replaceMsg (locate ts oldId newId qty price : Nat) : List Byte :=
  header 85 locate ts ++ encodeBE 8 oldId ++ encodeBE 8 newId ++ encodeBE 4 qty
    ++ encodeBE 4 price

/-- A book holding the single order `o` under key `k`. -/
def bookOf (k : OrderId) (o : Order) : OrderId → Option Order :=
  fun j => if j = k then some o else none

/-- Initial state with one resting order: id 7, price 10, quantity 100, locate 1. -/
def restingState : State :=
  { State.init with allBuyOrders := bookOf 7 ⟨10, 100, 1⟩ }

/-- Initial state with two resting orders: id 300 (price 1, quantity 1, locate 5)
and id 301 (price 5, quantity 7, locate 5). -/
def twoOrderState : State :=
  { State.init with allBuyOrders := assign (bookOf 300 ⟨1, 1, 5⟩) 301 ⟨5, 7, 5⟩ }

/-- Initial state with one resting order: id 300, price 1, quantity 1, locate 5. -/
def oneOrderState : State :=
  { State.init with allBuyOrders := bookOf 300 ⟨1, 1, 5⟩ }

/-! ## Sequences of handler calls -/

/-- The handlers of `Vwap.H`, one constructor per function. -/
inductive Handler where
  | system
  | stockRelated
  | add
  | exec
  | execPrice
  | cancel
  | delete
  | replace
  | nonCross
  | cross
  | broken
deriving DecidableEq, Repr

/-- The function of `Vwap.H` that a handler name stands for. -/
def Handler.call : Handler → State → List Byte → Option State
  | .system => systemMsg
  | .stockRelated => stockRelatedMsg
  | .add => addOrder
  | .exec => orderExec
  | .execPrice => orderExecPrice
  | .cancel => orderCancel
  | .delete => orderDelete
  | .replace => orderReplace
  | .nonCross => nonCrossTrade
  | .cross => crossTrade
  | .broken => brokenTrade

/-- Number of bytes from `msg_start` that the handler touches: the end of the
furthest field it reads (the 6-byte timestamp is an 8-byte load at offset 5). -/
def Handler.minLen : Handler → Nat
  | .system => 13
  | .stockRelated => 19
  | .add => 36
  | .exec => 23
  | .execPrice => 36
  | .cancel => 23
  | .delete => 19
  | .replace => 35
  | .nonCross => 0
  | .cross => 0
  | .broken => 0

/-- A finite sequence of handler calls, each on its own message, threaded
through the session state. -/
def run : State → List (Handler × List Byte) → Option State
  | s, [] => some s
  | s, (k, m) :: rest => (k.call s m).bind (fun s1 => run s1 rest)

/-- Every order of the book has a quantity that is non-zero and fits `qty_t`. -/
def PosBook (m : OrderId → Option Order) : Prop :=
  ∀ k o, m k = some o → 0 < o._qty ∧ o._qty < 2 ^ 32

/-- Every record of every ledger carries the locate of the ledger it is stored in. -/
def Labelled (a : LocateId → List Order) : Prop :=
  ∀ l r, r ∈ a l → r._id = l

/-- System event: event code at 11; the 8-byte load of the timestamp at offset 5
also touches offset 12, the first byte after the 12-byte message. -/
def systemEventMsg (ts : Nat) (code : Byte) : List Byte :=
  header 83 0 ts ++ [code, 0]

/-- Stock directory: 8-byte symbol at 11, followed by the 20 remaining bytes of
the message. -/
def stockDirMsg (locate ts : Nat) (symbol : List Byte) : List Byte :=
  header 82 locate ts ++ symbol.take 8 ++ List.replicate 20 0

/-- Initial state with the clock at 100 ns. -/
def lateState : State :=
  { State.init with CURRTIME := 100 }

/-- Initial state with the end flag already set. -/
def endedState : State :=
  { State.init with END := true }

/-- Initial state in which locate 5 is registered and its ledger holds one record. -/
def filledState : State :=
  { State.init with
    stockSymbols := setAt State.init.stockSymbols 5 [65, 65, 80, 76, 32, 32, 32, 32]
    attributedBuyOrders := push_back State.init.attributedBuyOrders 5 ⟨10, 40, 5⟩ }

/-! ### Codec lemmas -/

theorem byteOf_loadLE_zero (b : Byte) (bs : List Byte) :
    byteOf (loadLE (b :: bs)) 0 = b.val := by
  have hb := b.isLt
  simp only [byteOf, loadLE, pow_zero, Nat.div_one]
  omega

theorem byteOf_loadLE_succ (b : Byte) (bs : List Byte) (i : Nat) :
    byteOf (loadLE (b :: bs)) (i + 1) = byteOf (loadLE bs) i := by
  have hb := b.isLt
  have h : (b.val + 256 * loadLE bs) / 256 = loadLE bs := by omega
  simp only [byteOf, loadLE, pow_succ']
  rw [← Nat.div_div_eq_div_mul, h]

theorem bswap16_loadLE (a b : Byte) :
    bswap16 (loadLE [a, b]) = a.val * 256 + b.val := by
  simp only [bswap16, byteOf_loadLE_zero, byteOf_loadLE_succ]

theorem bswap32_loadLE (a b c d : Byte) :
    bswap32 (loadLE [a, b, c, d]) = a.val * 256 ^ 3 + b.val * 256 ^ 2 + c.val * 256 + d.val := by
  simp only [bswap32, byteOf_loadLE_zero, byteOf_loadLE_succ]

theorem bswap64_loadLE (a b c d e f g h : Byte) :
    bswap64 (loadLE [a, b, c, d, e, f, g, h])
      = a.val * 256 ^ 7 + b.val * 256 ^ 6 + c.val * 256 ^ 5 + d.val * 256 ^ 4
        + e.val * 256 ^ 3 + f.val * 256 ^ 2 + g.val * 256 + h.val := by
  simp only [bswap64, byteOf_loadLE_zero, byteOf_loadLE_succ]

theorem beValue_two (a b : Byte) : beValue [a, b] = a.val * 256 + b.val := by
  simp [beValue]

theorem beValue_four (a b c d : Byte) :
    beValue [a, b, c, d] = a.val * 256 ^ 3 + b.val * 256 ^ 2 + c.val * 256 + d.val := by
  simp only [beValue, List.foldl]
  ring

theorem beValue_six (a b c d e f : Byte) :
    beValue [a, b, c, d, e, f]
      = a.val * 256 ^ 5 + b.val * 256 ^ 4 + c.val * 256 ^ 3 + d.val * 256 ^ 2
        + e.val * 256 + f.val := by
  simp only [beValue, List.foldl]
  ring

theorem beValue_eight (a b c d e f g h : Byte) :
    beValue [a, b, c, d, e, f, g, h]
      = a.val * 256 ^ 7 + b.val * 256 ^ 6 + c.val * 256 ^ 5 + d.val * 256 ^ 4
        + e.val * 256 ^ 3 + f.val * 256 ^ 2 + g.val * 256 + h.val := by
  simp only [beValue, List.foldl]
  ring

theorem beValue_lt (bs : List Byte) : beValue bs < 256 ^ bs.length := by
  induction bs using List.reverseRecOn with
  | nil => simp [beValue]
  | append_singleton l a ih =>
    have ha := a.isLt
    have : beValue (l ++ [a]) = beValue l * 256 + a.val := by
      simp [beValue, List.foldl_append]
    rw [this, List.length_append, List.length_singleton, pow_succ]
    have : beValue l + 1 ≤ 256 ^ l.length := ih
    nlinarith

/-- On a word below `2 ^ 64`, masking with `mask6` and shifting right by 16
is division by `2 ^ 16`. -/
theorem and_mask6_shift (x : Nat) (hx : x < 2 ^ 64) :
    (x &&& mask6) >>> 16 = x / 2 ^ 16 := by
  have hm : mask6 = (2 ^ 48 - 1) <<< 16 := by decide
  rw [hm, ← Nat.shiftRight_eq_div_pow]
  apply Nat.eq_of_testBit_eq
  intro i
  simp only [Nat.testBit_shiftRight, Nat.testBit_and, Nat.testBit_shiftLeft,
    Nat.testBit_two_pow_sub_one]
  by_cases hi : i < 48
  · simp [hi]
  · have h2 : x < 2 ^ (16 + i) :=
      lt_of_lt_of_le hx (Nat.pow_le_pow_right (by decide) (by omega))
    simp [Nat.testBit_lt_two_pow h2]

theorem exists_cons_of_le (w : List Byte) (n : Nat) (h : n + 1 ≤ w.length) :
    ∃ a t, w = a :: t ∧ n ≤ t.length := by
  cases w with
  | nil => simp at h
  | cons a t => exact ⟨a, t, rfl, by simpa using h⟩

theorem reinterpret2bytes_eq (w : List Byte) (h : 2 ≤ w.length) :
    reinterpret2bytes w = some (beValue (w.take 2)) := by
  obtain ⟨a, w1, rfl, h1⟩ := exists_cons_of_le w 1 h
  obtain ⟨b, w2, rfl, -⟩ := exists_cons_of_le w1 0 h1
  simp [reinterpret2bytes, bswap16_loadLE, beValue_two]

theorem reinterpret4bytes_eq (w : List Byte) (h : 4 ≤ w.length) :
    reinterpret4bytes w = some (beValue (w.take 4)) := by
  obtain ⟨a, w1, rfl, h1⟩ := exists_cons_of_le w 3 h
  obtain ⟨b, w2, rfl, h2⟩ := exists_cons_of_le w1 2 h1
  obtain ⟨c, w3, rfl, h3⟩ := exists_cons_of_le w2 1 h2
  obtain ⟨d, w4, rfl, -⟩ := exists_cons_of_le w3 0 h3
  simp [reinterpret4bytes, bswap32_loadLE, beValue_four]

theorem reinterpret8bytes_eq (w : List Byte) (h : 8 ≤ w.length) :
    reinterpret8bytes w = some (beValue (w.take 8)) := by
  obtain ⟨a, w1, rfl, h1⟩ := exists_cons_of_le w 7 h
  obtain ⟨b, w2, rfl, h2⟩ := exists_cons_of_le w1 6 h1
  obtain ⟨c, w3, rfl, h3⟩ := exists_cons_of_le w2 5 h2
  obtain ⟨d, w4, rfl, h4⟩ := exists_cons_of_le w3 4 h3
  obtain ⟨e, w5, rfl, h5⟩ := exists_cons_of_le w4 3 h4
  obtain ⟨f, w6, rfl, h6⟩ := exists_cons_of_le w5 2 h5
  obtain ⟨g, w7, rfl, h7⟩ := exists_cons_of_le w6 1 h6
  obtain ⟨i, w8, rfl, -⟩ := exists_cons_of_le w7 0 h7
  simp [reinterpret8bytes, bswap64_loadLE, beValue_eight]

theorem reinterpret6bytes_eq (w : List Byte) (h : 8 ≤ w.length) :
    reinterpret6bytes w = some (beValue (w.take 6)) := by
  obtain ⟨a, w1, rfl, h1⟩ := exists_cons_of_le w 7 h
  obtain ⟨b, w2, rfl, h2⟩ := exists_cons_of_le w1 6 h1
  obtain ⟨c, w3, rfl, h3⟩ := exists_cons_of_le w2 5 h2
  obtain ⟨d, w4, rfl, h4⟩ := exists_cons_of_le w3 4 h3
  obtain ⟨e, w5, rfl, h5⟩ := exists_cons_of_le w4 3 h4
  obtain ⟨f, w6, rfl, h6⟩ := exists_cons_of_le w5 2 h5
  obtain ⟨g, w7, rfl, h7⟩ := exists_cons_of_le w6 1 h6
  obtain ⟨i, w8, rfl, -⟩ := exists_cons_of_le w7 0 h7
  have hlt : beValue [a, b, c, d, e, f, g, i] < 2 ^ 64 :=
    lt_of_lt_of_le (beValue_lt [a, b, c, d, e, f, g, i]) (by norm_num)
  have hdiv : beValue [a, b, c, d, e, f, g, i] / 2 ^ 16 = beValue [a, b, c, d, e, f] := by
    have hg := g.isLt
    have hi := i.isLt
    have e1 : beValue [a, b, c, d, e, f, g, i]
        = beValue [a, b, c, d, e, f] * 2 ^ 16 + (g.val * 256 + i.val) := by
      rw [beValue_eight, beValue_six]
      ring
    rw [e1, Nat.mul_comm, Nat.mul_add_div (by norm_num), Nat.div_eq_of_lt (by omega)]
    exact Nat.add_zero _
  have h8 : 8 ≤ (a :: b :: c :: d :: e :: f :: g :: i :: w8).length := by simp
  simp only [reinterpret6bytes, h8, if_true, List.take_succ_cons, List.take_zero,
    bswap64_loadLE]
  rw [← beValue_eight, and_mask6_shift _ hlt, hdiv]

theorem beValue_foldl (bs : List Byte) (acc : Nat) :
    bs.foldl (fun acc b => acc * 256 + b.val) acc = acc * 256 ^ bs.length + beValue bs := by
  induction bs generalizing acc with
  | nil => simp [beValue]
  | cons b t ih =>
    simp only [beValue, List.foldl_cons, List.length_cons]
    rw [ih, ih (0 * 256 + b.val)]
    ring

theorem beValue_cons (b : Byte) (bs : List Byte) :
    beValue (b :: bs) = b.val * 256 ^ bs.length + beValue bs := by
  have h := beValue_foldl bs (0 * 256 + b.val)
  simp only [Nat.zero_mul, Nat.zero_add] at h
  simpa [beValue] using h

theorem encodeBE_length (n v : Nat) : (encodeBE n v).length = n := by
  induction n with
  | zero => rfl
  | succ n ih => simp [encodeBE, ih]

theorem beValue_encodeBE (n v : Nat) : beValue (encodeBE n v) = v % 256 ^ n := by
  induction n with
  | zero => simp [encodeBE, beValue, Nat.mod_one]
  | succ n ih =>
    rw [encodeBE, beValue_cons, ih, encodeBE_length, Nat.mod_pow_succ]
    simp only [Fin.ofNat, Nat.reduceAdd]
    rw [Nat.mul_comm, Nat.add_comm]

theorem take_encodeBE_append (n v : Nat) (rest : List Byte) :
    (encodeBE n v ++ rest).take n = encodeBE n v := by
  rw [List.take_append_of_le_length (by rw [encodeBE_length])]
  exact List.take_of_length_le (by rw [encodeBE_length])

theorem reinterpret2bytes_drop (msg : List Byte) (k : Nat) (h : k + 2 ≤ msg.length) :
    reinterpret2bytes (msg.drop k) = some (field msg k 2) :=
  reinterpret2bytes_eq _ (by rw [List.length_drop]; omega)

theorem reinterpret4bytes_drop (msg : List Byte) (k : Nat) (h : k + 4 ≤ msg.length) :
    reinterpret4bytes (msg.drop k) = some (field msg k 4) :=
  reinterpret4bytes_eq _ (by rw [List.length_drop]; omega)

theorem reinterpret6bytes_drop (msg : List Byte) (k : Nat) (h : k + 8 ≤ msg.length) :
    reinterpret6bytes (msg.drop k) = some (field msg k 6) :=
  reinterpret6bytes_eq _ (by rw [List.length_drop]; omega)

theorem reinterpret8bytes_drop (msg : List Byte) (k : Nat) (h : k + 8 ≤ msg.length) :
    reinterpret8bytes (msg.drop k) = some (field msg k 8) :=
  reinterpret8bytes_eq _ (by rw [List.length_drop]; omega)

theorem field_lt (msg : List Byte) (k n : Nat) : field msg k n < 256 ^ n := by
  have h1 := beValue_lt ((msg.drop k).take n)
  have h2 : ((msg.drop k).take n).length ≤ n := by simp
  exact lt_of_lt_of_le h1 (Nat.pow_le_pow_right (by decide) h2)

/-! ### What each handler computes -/

theorem addOrder_buy (s : State) (msg : List Byte) (h : 36 ≤ msg.length)
    (hB : msg[19]? = some 66) :
    addOrder s msg = some { s with
      CURRTIME := field msg 5 6
      allBuyOrders := emplace s.allBuyOrders (field msg 11 8)
        ⟨field msg 32 4, field msg 20 4, field msg 1 2⟩ } := by
  simp [-List.drop_one, addOrder, reinterpret2bytes_drop msg 1 (by omega),
    reinterpret6bytes_drop msg 5 (by omega), reinterpret8bytes_drop msg 11 (by omega),
    reinterpret4bytes_drop msg 32 (by omega), reinterpret4bytes_drop msg 20 (by omega), hB]

theorem addOrder_other (s : State) (msg : List Byte) (h : 20 ≤ msg.length)
    (hB : msg[19]? ≠ some 66) :
    addOrder s msg = some { s with CURRTIME := field msg 5 6 } := by
  have hc : msg[19]? = some (msg[19]) := List.getElem?_eq_getElem (by omega)
  have hne : msg[19] ≠ 66 := fun e => hB (by rw [hc, e])
  simp [-List.drop_one, addOrder, reinterpret2bytes_drop msg 1 (by omega),
    reinterpret6bytes_drop msg 5 (by omega), reinterpret8bytes_drop msg 11 (by omega), hc, hne]

theorem orderExec_absent (s : State) (msg : List Byte) (h : 23 ≤ msg.length)
    (ha : s.allBuyOrders (field msg 11 8) = none) :
    orderExec s msg = some { s with CURRTIME := field msg 5 6 } := by
  simp [-List.drop_one, orderExec, reinterpret2bytes_drop msg 1 (by omega),
    reinterpret6bytes_drop msg 5 (by omega), reinterpret8bytes_drop msg 11 (by omega),
    reinterpret4bytes_drop msg 19 (by omega), ha]

theorem orderExec_present (s : State) (msg : List Byte) (o : Order) (h : 23 ≤ msg.length)
    (hp : s.allBuyOrders (field msg 11 8) = some o) :
    orderExec s msg = some { s with
      CURRTIME := field msg 5 6
      allBuyOrders :=
        if field msg 19 4 = o._qty then erase s.allBuyOrders (field msg 11 8)
        else assign s.allBuyOrders (field msg 11 8)
          { o with _qty := sub32 o._qty (field msg 19 4) }
      attributedBuyOrders := push_back s.attributedBuyOrders (field msg 1 2)
        ⟨o._price, field msg 19 4, field msg 1 2⟩ } := by
  simp [-List.drop_one, orderExec, reinterpret2bytes_drop msg 1 (by omega),
    reinterpret6bytes_drop msg 5 (by omega), reinterpret8bytes_drop msg 11 (by omega),
    reinterpret4bytes_drop msg 19 (by omega), hp]

theorem orderExecPrice_absent (s : State) (msg : List Byte) (h : 36 ≤ msg.length)
    (ha : s.allBuyOrders (field msg 11 8) = none) :
    orderExecPrice s msg = some { s with CURRTIME := field msg 5 6 } := by
  simp [-List.drop_one, orderExecPrice, reinterpret2bytes_drop msg 1 (by omega),
    reinterpret6bytes_drop msg 5 (by omega), reinterpret8bytes_drop msg 11 (by omega),
    reinterpret4bytes_drop msg 19 (by omega), reinterpret4bytes_drop msg 32 (by omega), ha]

theorem orderExecPrice_present (s : State) (msg : List Byte) (o : Order)
    (h : 36 ≤ msg.length) (hp : s.allBuyOrders (field msg 11 8) = some o) :
    orderExecPrice s msg = some { s with
      CURRTIME := field msg 5 6
      allBuyOrders :=
        if field msg 19 4 = o._qty then erase s.allBuyOrders (field msg 11 8)
        else assign s.allBuyOrders (field msg 11 8)
          { o with _qty := sub32 o._qty (field msg 19 4) }
      attributedBuyOrders := push_back s.attributedBuyOrders (field msg 1 2)
        ⟨field msg 32 4, field msg 19 4, field msg 1 2⟩ } := by
  simp [-List.drop_one, orderExecPrice, reinterpret2bytes_drop msg 1 (by omega),
    reinterpret6bytes_drop msg 5 (by omega), reinterpret8bytes_drop msg 11 (by omega),
    reinterpret4bytes_drop msg 19 (by omega), reinterpret4bytes_drop msg 32 (by omega), hp]

theorem orderCancel_absent (s : State) (msg : List Byte) (h : 23 ≤ msg.length)
    (ha : s.allBuyOrders (field msg 11 8) = none) :
    orderCancel s msg = some s := by
  simp [orderCancel, reinterpret8bytes_drop msg 11 (by omega),
    reinterpret4bytes_drop msg 19 (by omega), ha]

theorem orderCancel_present (s : State) (msg : List Byte) (o : Order) (h : 23 ≤ msg.length)
    (hp : s.allBuyOrders (field msg 11 8) = some o) :
    orderCancel s msg = some { s with
      allBuyOrders :=
        if sub32 o._qty (field msg 19 4) = 0 then
          erase (assign s.allBuyOrders (field msg 11 8)
            { o with _qty := sub32 o._qty (field msg 19 4) }) (field msg 11 8)
        else assign s.allBuyOrders (field msg 11 8)
          { o with _qty := sub32 o._qty (field msg 19 4) } } := by
  simp only [orderCancel, reinterpret8bytes_drop msg 11 (by omega),
    reinterpret4bytes_drop msg 19 (by omega), hp, Option.bind_eq_bind, Option.some_bind,
    Option.pure_def]
  split <;> simp_all

theorem orderDelete_eq (s : State) (msg : List Byte) (h : 19 ≤ msg.length) :
    orderDelete s msg
      = some { s with allBuyOrders := erase s.allBuyOrders (field msg 11 8) } := by
  simp [orderDelete, reinterpret8bytes_drop msg 11 (by omega)]

theorem orderReplace_absent (s : State) (msg : List Byte) (h : 35 ≤ msg.length)
    (ha : s.allBuyOrders (field msg 11 8) = none) :
    orderReplace s msg = some s := by
  simp [-List.drop_one, orderReplace, reinterpret2bytes_drop msg 1 (by omega),
    reinterpret8bytes_drop msg 11 (by omega), reinterpret8bytes_drop msg 19 (by omega),
    reinterpret4bytes_drop msg 27 (by omega), reinterpret4bytes_drop msg 31 (by omega), ha]

theorem orderReplace_present (s : State) (msg : List Byte) (o : Order) (h : 35 ≤ msg.length)
    (hp : s.allBuyOrders (field msg 11 8) = some o) :
    orderReplace s msg = some { s with
      allBuyOrders := emplace (erase s.allBuyOrders (field msg 11 8)) (field msg 19 8)
        ⟨field msg 31 4, field msg 27 4, field msg 1 2⟩ } := by
  simp [-List.drop_one, orderReplace, reinterpret2bytes_drop msg 1 (by omega),
    reinterpret8bytes_drop msg 11 (by omega), reinterpret8bytes_drop msg 19 (by omega),
    reinterpret4bytes_drop msg 27 (by omega), reinterpret4bytes_drop msg 31 (by omega), hp]

theorem totalRecords_push_back (s s' : State) (l : LocateId) (o : Order) (hl : l < 2 ^ 16)
    (h : s'.attributedBuyOrders = push_back s.attributedBuyOrders l o) :
    totalRecords s' = totalRecords s + 1 := by
  have hlen : ∀ j, (push_back s.attributedBuyOrders l o j).length
      = (s.attributedBuyOrders j).length + (if l = j then 1 else 0) := by
    intro j
    by_cases hj : j = l
    · subst hj; simp [push_back]
    · have hj' : ¬ l = j := fun e => hj e.symm
      simp [push_back, hj, hj']
  simp only [totalRecords, h, hlen, Finset.sum_add_distrib, Finset.sum_ite_eq,
    Finset.mem_range, hl, if_true]

theorem sub32_of_lt (q e : Nat) (hq : q < 2 ^ 32) (he : e < q) : sub32 q e = q - e := by
  unfold sub32
  have h1 : e % 2 ^ 32 = e := Nat.mod_eq_of_lt (by omega)
  rw [h1]
  omega

theorem sub32_self (q : Nat) (hq : q < 2 ^ 32) : sub32 q q = 0 := by
  unfold sub32
  have h1 : q % 2 ^ 32 = q := Nat.mod_eq_of_lt hq
  rw [h1]
  omega

theorem sub32_eq (q e : Nat) (he : e < 2 ^ 32) :
    sub32 q e = (q + 2 ^ 32 - e) % 2 ^ 32 := by
  unfold sub32
  have h1 : e % 2 ^ 32 = e := Nat.mod_eq_of_lt he
  rw [h1]
  congr 1
  omega

theorem field4_lt (msg : List Byte) (k : Nat) : field msg k 4 < 2 ^ 32 :=
  lt_of_lt_of_le (field_lt msg k 4) (by norm_num)

theorem field2_lt (msg : List Byte) (k : Nat) : field msg k 2 < 2 ^ 16 :=
  lt_of_lt_of_le (field_lt msg k 2) (by norm_num)

/-! ## C1, C2: the wire field codec -/

/-- C1: on a cursor holding at least `n` bytes (`n = 2, 4, 8`),
`reinterpret2bytes`, `reinterpret4bytes` and `reinterpret8bytes` return the
unsigned big-endian value `∑ i < n, byte[i] * 256 ^ (n - 1 - i)` of the first
`n` bytes; consequently decoding the `n`-byte big-endian encoding of a value
below `2 ^ (8 n)` returns that value. -/
theorem reinterpret_bigEndian_value (w rest : List Byte) (v : Nat) :
    (2 ≤ w.length → reinterpret2bytes w
        = some (∑ i in Finset.range 2, (w.getD i 0).val * 256 ^ (2 - 1 - i)))
    ∧ (4 ≤ w.length → reinterpret4bytes w
        = some (∑ i in Finset.range 4, (w.getD i 0).val * 256 ^ (4 - 1 - i)))
    ∧ (8 ≤ w.length → reinterpret8bytes w
        = some (∑ i in Finset.range 8, (w.getD i 0).val * 256 ^ (8 - 1 - i)))
    ∧ (v < 2 ^ 16 → reinterpret2bytes (encodeBE 2 v ++ rest) = some v)
    ∧ (v < 2 ^ 32 → reinterpret4bytes (encodeBE 4 v ++ rest) = some v)
    ∧ (v < 2 ^ 64 → reinterpret8bytes (encodeBE 8 v ++ rest) = some v) := by
  refine ⟨?_, ?_, ?_, ?_, ?_, ?_⟩
  · intro h
    obtain ⟨a, w1, rfl, h1⟩ := exists_cons_of_le w 1 h
    obtain ⟨b, w2, rfl, -⟩ := exists_cons_of_le w1 0 h1
    rw [reinterpret2bytes_eq _ h]
    simp [Finset.sum_range_succ, beValue_two]
  · intro h
    obtain ⟨a, w1, rfl, h1⟩ := exists_cons_of_le w 3 h
    obtain ⟨b, w2, rfl, h2⟩ := exists_cons_of_le w1 2 h1
    obtain ⟨c, w3, rfl, h3⟩ := exists_cons_of_le w2 1 h2
    obtain ⟨d, w4, rfl, -⟩ := exists_cons_of_le w3 0 h3
    rw [reinterpret4bytes_eq _ h]
    simp [Finset.sum_range_succ, beValue_four]
  · intro h
    obtain ⟨a, w1, rfl, h1⟩ := exists_cons_of_le w 7 h
    obtain ⟨b, w2, rfl, h2⟩ := exists_cons_of_le w1 6 h1
    obtain ⟨c, w3, rfl, h3⟩ := exists_cons_of_le w2 5 h2
    obtain ⟨d, w4, rfl, h4⟩ := exists_cons_of_le w3 4 h3
    obtain ⟨e, w5, rfl, h5⟩ := exists_cons_of_le w4 3 h4
    obtain ⟨f, w6, rfl, h6⟩ := exists_cons_of_le w5 2 h5
    obtain ⟨g, w7, rfl, h7⟩ := exists_cons_of_le w6 1 h6
    obtain ⟨i, w8, rfl, -⟩ := exists_cons_of_le w7 0 h7
    rw [reinterpret8bytes_eq _ h]
    simp [Finset.sum_range_succ, beValue_eight]
  · intro hv
    rw [reinterpret2bytes_eq _ (by simp [encodeBE_length]), take_encodeBE_append,
      beValue_encodeBE, Nat.mod_eq_of_lt (lt_of_lt_of_le hv (by norm_num))]
  · intro hv
    rw [reinterpret4bytes_eq _ (by simp [encodeBE_length]), take_encodeBE_append,
      beValue_encodeBE, Nat.mod_eq_of_lt (lt_of_lt_of_le hv (by norm_num))]
  · intro hv
    rw [reinterpret8bytes_eq _ (by simp [encodeBE_length]), take_encodeBE_append,
      beValue_encodeBE, Nat.mod_eq_of_lt (lt_of_lt_of_le hv (by norm_num))]

/-- C1 at the cursor `01 02 03 04 05 06 07 08` and the value `12345`. -/
theorem reinterpret_bigEndian_value_witness :
    reinterpret2bytes [1, 2, 3, 4, 5, 6, 7, 8] = some 258
    ∧ reinterpret4bytes [1, 2, 3, 4, 5, 6, 7, 8] = some 16909060
    ∧ reinterpret8bytes [1, 2, 3, 4, 5, 6, 7, 8] = some 72623859790382856
    ∧ reinterpret2bytes (encodeBE 2 12345 ++ [7]) = some 12345
    ∧ reinterpret4bytes (encodeBE 4 12345 ++ [7]) = some 12345
    ∧ reinterpret8bytes (encodeBE 8 12345 ++ [7]) = some 12345 := by
  have h := reinterpret_bigEndian_value [1, 2, 3, 4, 5, 6, 7, 8] [7] 12345
  refine ⟨?_, ?_, ?_, h.2.2.2.1 (by norm_num), h.2.2.2.2.1 (by norm_num),
    h.2.2.2.2.2 (by norm_num)⟩
  · rw [h.1 (by decide)]; decide
  · rw [h.2.1 (by decide)]; decide
  · rw [h.2.2.1 (by decide)]; decide

/-- C2: on a cursor holding at least 8 bytes, `reinterpret6bytes` returns the
unsigned big-endian value of the six bytes at positions 0..5; the result is
below `2 ^ 48` and is the same for any other cursor that agrees on those six
bytes, whatever its bytes at positions 6 and 7. -/
theorem reinterpret6bytes_first_six (w : List Byte) (h : 8 ≤ w.length) :
    reinterpret6bytes w
        = some (∑ i in Finset.range 6, (w.getD i 0).val * 256 ^ (6 - 1 - i))
    ∧ (∀ r, reinterpret6bytes w = some r → r < 2 ^ 48)
    ∧ (∀ w2 : List Byte, 8 ≤ w2.length → w2.take 6 = w.take 6 →
        reinterpret6bytes w2 = reinterpret6bytes w) := by
  have hv : reinterpret6bytes w = some (beValue (w.take 6)) := reinterpret6bytes_eq w h
  refine ⟨?_, ?_, ?_⟩
  · obtain ⟨a, w1, rfl, h1⟩ := exists_cons_of_le w 7 h
    obtain ⟨b, w2, rfl, h2⟩ := exists_cons_of_le w1 6 h1
    obtain ⟨c, w3, rfl, h3⟩ := exists_cons_of_le w2 5 h2
    obtain ⟨d, w4, rfl, h4⟩ := exists_cons_of_le w3 4 h3
    obtain ⟨e, w5, rfl, h5⟩ := exists_cons_of_le w4 3 h4
    obtain ⟨f, w6, rfl, -⟩ := exists_cons_of_le w5 2 h5
    rw [hv]
    simp [Finset.sum_range_succ, beValue_six]
  · intro r hr
    rw [hv] at hr
    cases hr
    have hl : (w.take 6).length = 6 := by simp; omega
    have := beValue_lt (w.take 6)
    rw [hl] at this
    exact lt_of_lt_of_le this (by norm_num)
  · intro w2 h2 ht
    rw [hv, reinterpret6bytes_eq w2 h2, ht]

/-- C2 at the cursor `01 02 03 04 05 06 ff ee`. -/
theorem reinterpret6bytes_first_six_witness :
    reinterpret6bytes [1, 2, 3, 4, 5, 6, 255, 238] = some 1108152157446
    ∧ reinterpret6bytes [1, 2, 3, 4, 5, 6, 0, 0]
        = reinterpret6bytes [1, 2, 3, 4, 5, 6, 255, 238] := by
  have h := reinterpret6bytes_first_six [1, 2, 3, 4, 5, 6, 255, 238] (by decide)
  refine ⟨?_, h.2.2 [1, 2, 3, 4, 5, 6, 0, 0] (by decide) (by decide)⟩
  rw [h.1]; decide

/-! ## C3: Add -/

/-- C3: for an Add-order message whose side byte (offset 19) is `'B'` and whose
order id (offset 11) is not in the book, `addOrder` inserts exactly that id,
mapped to price = field at 32, quantity = field at 20, locate = field at 1, and
leaves every other book entry and every ledger unchanged; for a message whose
side byte is not `'B'` the book and every ledger are unchanged. -/
theorem addOrder_buy_inserts (s : State) (msg : List Byte) (hlen : 36 ≤ msg.length) :
    (msg[19]? = some 66 → s.allBuyOrders (field msg 11 8) = none →
      ∃ s', addOrder s msg = some s'
        ∧ s'.allBuyOrders (field msg 11 8)
            = some ⟨field msg 32 4, field msg 20 4, field msg 1 2⟩
        ∧ (∀ k, k ≠ field msg 11 8 → s'.allBuyOrders k = s.allBuyOrders k)
        ∧ s'.attributedBuyOrders = s.attributedBuyOrders)
    ∧ (msg[19]? ≠ some 66 →
      ∃ s', addOrder s msg = some s'
        ∧ s'.allBuyOrders = s.allBuyOrders
        ∧ s'.attributedBuyOrders = s.attributedBuyOrders) := by
  constructor
  · intro hB hnew
    refine ⟨_, addOrder_buy s msg hlen hB, ?_, ?_, rfl⟩
    · simp [emplace, hnew]
    · intro k hk
      simp [emplace, hk]
  · intro hB
    exact ⟨_, addOrder_other s msg (by omega) hB, rfl, rfl⟩

/-- C3 at the initial state, for a buy and for a sell Add message. -/
theorem addOrder_buy_inserts_witness :
    (∃ s', addOrder State.init (addMsg 5 0 100 66 500 12300) = some s'
        ∧ s'.allBuyOrders (field (addMsg 5 0 100 66 500 12300) 11 8)
            = some ⟨field (addMsg 5 0 100 66 500 12300) 32 4,
                field (addMsg 5 0 100 66 500 12300) 20 4,
                field (addMsg 5 0 100 66 500 12300) 1 2⟩
        ∧ (∀ k, k ≠ field (addMsg 5 0 100 66 500 12300) 11 8 →
            s'.allBuyOrders k = State.init.allBuyOrders k)
        ∧ s'.attributedBuyOrders = State.init.attributedBuyOrders)
    ∧ (∃ s', addOrder State.init (addMsg 5 0 100 83 500 12300) = some s'
        ∧ s'.allBuyOrders = State.init.allBuyOrders
        ∧ s'.attributedBuyOrders = State.init.attributedBuyOrders) :=
  ⟨(addOrder_buy_inserts State.init (addMsg 5 0 100 66 500 12300) (by decide)).1
      (by decide) rfl,
   (addOrder_buy_inserts State.init (addMsg 5 0 100 83 500 12300) (by decide)).2
      (by decide)⟩

/-! ## C4, C5: Execute and ExecutePrice -/

/-- C4 as stated fails: with order 7 resting at quantity 100, an Execute of
quantity 200 (different from 100) leaves the order in the book with quantity
4294967196, which is not below 100. -/
theorem orderExec_overfill_counterexample :
    restingState.allBuyOrders (field (execMsg 1 0 7 200) 11 8) = some ⟨10, 100, 1⟩
    ∧ field (execMsg 1 0 7 200) 19 4 = 200
    ∧ (orderExec restingState (execMsg 1 0 7 200)).map (fun s' => s'.allBuyOrders 7)
        = some (some ⟨10, 4294967196, 1⟩)
    ∧ ¬ (∀ s' o', orderExec restingState (execMsg 1 0 7 200) = some s' →
          s'.allBuyOrders 7 = some o' → o'._qty < 100) := by
  refine ⟨by decide, by decide, by decide, ?_⟩
  intro h
  have hp : restingState.allBuyOrders (field (execMsg 1 0 7 200) 11 8) = some ⟨10, 100, 1⟩ := by
    decide
  have h2 := h _ ⟨10, 4294967196, 1⟩ (orderExec_present restingState (execMsg 1 0 7 200) _
    (by decide) hp) (by decide)
  exact absurd h2 (by decide)

/-- C4, amended: for an Execute or ExecutePrice message whose order id is
present with resting quantity `q` (a `uint32_t`): if `execQty = q` the id is
absent afterwards; if `execQty ≠ q` the id is still present with quantity
`(q - execQty) mod 2 ^ 32` and unchanged price and locate, and that quantity is
`q - execQty`, below `q`, whenever `0 < execQty < q`; in both cases the total
number of ledger records grows by exactly one. -/
theorem exec_quantity_update (s : State) (msg : List Byte) (o : Order)
    (hq : o._qty < 2 ^ 32) (hp : s.allBuyOrders (field msg 11 8) = some o) :
    (23 ≤ msg.length →
      ∃ s', orderExec s msg = some s'
        ∧ (field msg 19 4 = o._qty → s'.allBuyOrders (field msg 11 8) = none)
        ∧ (field msg 19 4 ≠ o._qty →
            s'.allBuyOrders (field msg 11 8)
              = some ⟨o._price, (o._qty + 2 ^ 32 - field msg 19 4) % 2 ^ 32, o._id⟩)
        ∧ (0 < field msg 19 4 → field msg 19 4 < o._qty →
            s'.allBuyOrders (field msg 11 8)
              = some ⟨o._price, o._qty - field msg 19 4, o._id⟩
            ∧ o._qty - field msg 19 4 < o._qty)
        ∧ totalRecords s' = totalRecords s + 1)
    ∧ (36 ≤ msg.length →
      ∃ s', orderExecPrice s msg = some s'
        ∧ (field msg 19 4 = o._qty → s'.allBuyOrders (field msg 11 8) = none)
        ∧ (field msg 19 4 ≠ o._qty →
            s'.allBuyOrders (field msg 11 8)
              = some ⟨o._price, (o._qty + 2 ^ 32 - field msg 19 4) % 2 ^ 32, o._id⟩)
        ∧ (0 < field msg 19 4 → field msg 19 4 < o._qty →
            s'.allBuyOrders (field msg 11 8)
              = some ⟨o._price, o._qty - field msg 19 4, o._id⟩
            ∧ o._qty - field msg 19 4 < o._qty)
        ∧ totalRecords s' = totalRecords s + 1) := by
  have he := field4_lt msg 19
  have key : ∀ book : OrderId → Option Order,
      book = (if field msg 19 4 = o._qty then erase s.allBuyOrders (field msg 11 8)
        else assign s.allBuyOrders (field msg 11 8)
          { o with _qty := sub32 o._qty (field msg 19 4) }) →
      (field msg 19 4 = o._qty → book (field msg 11 8) = none)
      ∧ (field msg 19 4 ≠ o._qty →
          book (field msg 11 8)
            = some ⟨o._price, (o._qty + 2 ^ 32 - field msg 19 4) % 2 ^ 32, o._id⟩)
      ∧ (0 < field msg 19 4 → field msg 19 4 < o._qty →
          book (field msg 11 8) = some ⟨o._price, o._qty - field msg 19 4, o._id⟩
          ∧ o._qty - field msg 19 4 < o._qty) := by
    intro book hb
    refine ⟨?_, ?_, ?_⟩
    · intro h
      simp [hb, h, erase]
    · intro h
      simp [hb, h, assign, sub32_eq _ _ he]
    · intro h0 hlt
      have hne : field msg 19 4 ≠ o._qty := Nat.ne_of_lt hlt
      refine ⟨?_, by omega⟩
      simp [hb, hne, assign, sub32_of_lt _ _ hq hlt]
  constructor
  · intro hlen
    refine ⟨_, orderExec_present s msg o hlen hp, ?_⟩
    obtain ⟨k1, k2, k3⟩ := key _ rfl
    exact ⟨k1, k2, k3, totalRecords_push_back s _ _ _ (field2_lt msg 1) rfl⟩
  · intro hlen
    refine ⟨_, orderExecPrice_present s msg o hlen hp, ?_⟩
    obtain ⟨k1, k2, k3⟩ := key _ rfl
    exact ⟨k1, k2, k3, totalRecords_push_back s _ _ _ (field2_lt msg 1) rfl⟩

/-- C4 (amended) at order 7 resting with quantity 100 and an Execute of 200. -/
theorem exec_quantity_update_witness :
    ∃ s', orderExec restingState (execMsg 1 0 7 200) = some s'
      ∧ (field (execMsg 1 0 7 200) 19 4 = 100 →
          s'.allBuyOrders (field (execMsg 1 0 7 200) 11 8) = none)
      ∧ (field (execMsg 1 0 7 200) 19 4 ≠ 100 →
          s'.allBuyOrders (field (execMsg 1 0 7 200) 11 8)
            = some ⟨10, (100 + 2 ^ 32 - field (execMsg 1 0 7 200) 19 4) % 2 ^ 32, 1⟩)
      ∧ (0 < field (execMsg 1 0 7 200) 19 4 → field (execMsg 1 0 7 200) 19 4 < 100 →
          s'.allBuyOrders (field (execMsg 1 0 7 200) 11 8)
            = some ⟨10, 100 - field (execMsg 1 0 7 200) 19 4, 1⟩
          ∧ 100 - field (execMsg 1 0 7 200) 19 4 < 100)
      ∧ totalRecords s' = totalRecords restingState + 1 :=
  (exec_quantity_update restingState (execMsg 1 0 7 200) ⟨10, 100, 1⟩ (by norm_num)
    (by decide)).1 (by decide)

/-- C5: when the referenced order id is present with resting price `p`,
`orderExec` appends exactly one record at the end of one ledger, with price `p`
and quantity the executed quantity (field at 19); `orderExecPrice` appends
exactly one record with price the message's execution price (field at 32) and
the executed quantity; every other ledger is unchanged.  In particular
Add(locate 5, id 100, `'B'`, qty 500, price 12300) then Execute(locate 5,
id 100, qty 500) from the initial state leaves no entry for 100 and exactly the
record (12300, 500) in the ledger of locate 5. -/
theorem exec_ledger_record (s : State) (msg : List Byte) (o : Order)
    (hp : s.allBuyOrders (field msg 11 8) = some o) :
    (23 ≤ msg.length →
      ∃ s', orderExec s msg = some s'
        ∧ s'.attributedBuyOrders (field msg 1 2)
            = s.attributedBuyOrders (field msg 1 2)
              ++ [⟨o._price, field msg 19 4, field msg 1 2⟩]
        ∧ (∀ l, l ≠ field msg 1 2 → s'.attributedBuyOrders l = s.attributedBuyOrders l))
    ∧ (36 ≤ msg.length →
      ∃ s', orderExecPrice s msg = some s'
        ∧ s'.attributedBuyOrders (field msg 1 2)
            = s.attributedBuyOrders (field msg 1 2)
              ++ [⟨field msg 32 4, field msg 19 4, field msg 1 2⟩]
        ∧ (∀ l, l ≠ field msg 1 2 → s'.attributedBuyOrders l = s.attributedBuyOrders l))
    ∧ (∃ s1 s2, addOrder State.init (addMsg 5 0 100 66 500 12300) = some s1
        ∧ orderExec s1 (execMsg 5 0 100 500) = some s2
        ∧ s2.allBuyOrders 100 = none
        ∧ s2.attributedBuyOrders 5 = [⟨12300, 500, 5⟩]) := by
  refine ⟨?_, ?_, ?_⟩
  · intro hlen
    refine ⟨_, orderExec_present s msg o hlen hp, by simp [push_back], ?_⟩
    intro l hl
    simp [push_back, hl]
  · intro hlen
    refine ⟨_, orderExecPrice_present s msg o hlen hp, by simp [push_back], ?_⟩
    intro l hl
    simp [push_back, hl]
  · have h1 := addOrder_buy State.init (addMsg 5 0 100 66 500 12300) (by decide) (by decide)
    refine ⟨_, _, h1, orderExec_present _ (execMsg 5 0 100 500) ⟨12300, 500, 5⟩ (by decide)
      (by decide), by decide, by decide⟩

/-- C5 at order 7 resting at price 10, executed for 40 and executed at price 99 for 40. -/
theorem exec_ledger_record_witness :
    (∃ s', orderExec restingState (execMsg 1 0 7 40) = some s'
        ∧ s'.attributedBuyOrders (field (execMsg 1 0 7 40) 1 2)
            = restingState.attributedBuyOrders (field (execMsg 1 0 7 40) 1 2)
              ++ [⟨10, field (execMsg 1 0 7 40) 19 4, field (execMsg 1 0 7 40) 1 2⟩]
        ∧ (∀ l, l ≠ field (execMsg 1 0 7 40) 1 2 →
            s'.attributedBuyOrders l = restingState.attributedBuyOrders l))
    ∧ (∃ s', orderExecPrice restingState (execPriceMsg 1 0 7 40 99) = some s'
        ∧ s'.attributedBuyOrders (field (execPriceMsg 1 0 7 40 99) 1 2)
            = restingState.attributedBuyOrders (field (execPriceMsg 1 0 7 40 99) 1 2)
              ++ [⟨field (execPriceMsg 1 0 7 40 99) 32 4,
                  field (execPriceMsg 1 0 7 40 99) 19 4,
                  field (execPriceMsg 1 0 7 40 99) 1 2⟩]
        ∧ (∀ l, l ≠ field (execPriceMsg 1 0 7 40 99) 1 2 →
            s'.attributedBuyOrders l = restingState.attributedBuyOrders l)) :=
  ⟨(exec_ledger_record restingState (execMsg 1 0 7 40) ⟨10, 100, 1⟩ (by decide)).1
      (by decide),
   (exec_ledger_record restingState (execPriceMsg 1 0 7 40 99) ⟨10, 100, 1⟩
      (by decide)).2.1 (by decide)⟩

/-! ## C6, C7: Cancel and Delete -/

/-- C6: for every Cancel message every ledger is unchanged and every book
entry other than the referenced id is unchanged; if the id is present with
quantity `q` and `cancelQty = q` the id is absent afterwards, and if
`cancelQty < q` it is present with quantity `q - cancelQty` and unchanged price
and locate.  In particular Add(id 200, qty 300, price 500) then Cancel(id 200,
qty 100) leaves entry 200 with quantity 200 and the ledgers as they were. -/
theorem orderCancel_effect (s : State) (msg : List Byte) (hlen : 23 ≤ msg.length) :
    (∃ s', orderCancel s msg = some s'
      ∧ s'.attributedBuyOrders = s.attributedBuyOrders
      ∧ (∀ k, k ≠ field msg 11 8 → s'.allBuyOrders k = s.allBuyOrders k)
      ∧ (∀ o, s.allBuyOrders (field msg 11 8) = some o →
          (field msg 19 4 = o._qty → s'.allBuyOrders (field msg 11 8) = none)
          ∧ (field msg 19 4 < o._qty → o._qty < 2 ^ 32 →
              s'.allBuyOrders (field msg 11 8)
                = some ⟨o._price, o._qty - field msg 19 4, o._id⟩)))
    ∧ (∃ s1 s2, addOrder State.init (addMsg 1 0 200 66 300 500) = some s1
        ∧ orderCancel s1 (cancelMsg 1 0 200 100) = some s2
        ∧ s2.allBuyOrders 200 = some ⟨500, 200, 1⟩
        ∧ s2.attributedBuyOrders = s1.attributedBuyOrders) := by
  have he := field4_lt msg 19
  constructor
  · cases hp : s.allBuyOrders (field msg 11 8) with
    | none =>
      refine ⟨s, orderCancel_absent s msg hlen hp, rfl, fun _ _ => rfl, ?_⟩
      intro o ho
      cases ho
    | some o =>
      refine ⟨_, orderCancel_present s msg o hlen hp, rfl, ?_, ?_⟩
      · intro k hk
        by_cases hz : sub32 o._qty (field msg 19 4) = 0 <;> simp [hz, erase, assign, hk]
      · intro o2 ho2
        cases ho2
        constructor
        · intro heq
          have hz : sub32 o._qty (field msg 19 4) = 0 := by
            rw [heq]
            exact sub32_self _ (by omega)
          simp [hz, erase]
        · intro hlt hq
          have hv := sub32_of_lt _ _ hq hlt
          have hz : ¬ o._qty - field msg 19 4 = 0 := by omega
          simp [hv, hz, assign]
  · have h1 := addOrder_buy State.init (addMsg 1 0 200 66 300 500) (by decide) (by decide)
    refine ⟨_, _, h1, orderCancel_present _ (cancelMsg 1 0 200 100) ⟨500, 300, 1⟩ (by decide)
      (by decide), by decide, rfl⟩

/-- C6 at order 7 resting with quantity 100 and a Cancel of 40. -/
theorem orderCancel_effect_witness :
    ∃ s', orderCancel restingState (cancelMsg 1 0 7 40) = some s'
      ∧ s'.attributedBuyOrders = restingState.attributedBuyOrders
      ∧ (∀ k, k ≠ field (cancelMsg 1 0 7 40) 11 8 →
          s'.allBuyOrders k = restingState.allBuyOrders k)
      ∧ (∀ o, restingState.allBuyOrders (field (cancelMsg 1 0 7 40) 11 8) = some o →
          (field (cancelMsg 1 0 7 40) 19 4 = o._qty →
            s'.allBuyOrders (field (cancelMsg 1 0 7 40) 11 8) = none)
          ∧ (field (cancelMsg 1 0 7 40) 19 4 < o._qty → o._qty < 2 ^ 32 →
              s'.allBuyOrders (field (cancelMsg 1 0 7 40) 11 8)
                = some ⟨o._price, o._qty - field (cancelMsg 1 0 7 40) 19 4, o._id⟩)) :=
  (orderCancel_effect restingState (cancelMsg 1 0 7 40) (by decide)).1

/-- C7: after `orderDelete` the referenced order id (field at 11) is absent
whatever its remaining quantity was; every other book entry, every ledger, the
directory, the clock and the end flag are unchanged. -/
theorem orderDelete_effect (s : State) (msg : List Byte) (hlen : 19 ≤ msg.length) :
    ∃ s', orderDelete s msg = some s'
      ∧ s'.allBuyOrders (field msg 11 8) = none
      ∧ (∀ k, k ≠ field msg 11 8 → s'.allBuyOrders k = s.allBuyOrders k)
      ∧ s'.attributedBuyOrders = s.attributedBuyOrders
      ∧ s'.stockSymbols = s.stockSymbols
      ∧ s'.CURRTIME = s.CURRTIME
      ∧ s'.LASTPRINTED = s.LASTPRINTED
      ∧ s'.END = s.END := by
  refine ⟨_, orderDelete_eq s msg hlen, by simp [erase], ?_, rfl, rfl, rfl, rfl, rfl⟩
  intro k hk
  simp [erase, hk]

/-- C7 at order 7 resting with quantity 100. -/
theorem orderDelete_effect_witness :
    ∃ s', orderDelete restingState (deleteMsg 1 0 7) = some s'
      ∧ s'.allBuyOrders (field (deleteMsg 1 0 7) 11 8) = none
      ∧ (∀ k, k ≠ field (deleteMsg 1 0 7) 11 8 →
          s'.allBuyOrders k = restingState.allBuyOrders k)
      ∧ s'.attributedBuyOrders = restingState.attributedBuyOrders
      ∧ s'.stockSymbols = restingState.stockSymbols
      ∧ s'.CURRTIME = restingState.CURRTIME
      ∧ s'.LASTPRINTED = restingState.LASTPRINTED
      ∧ s'.END = restingState.END :=
  orderDelete_effect restingState (deleteMsg 1 0 7) (by decide)

/-! ## C8, C9: Replace -/

/-- C8 as stated fails: with orders 300 and 301 both live (301 at price 5,
quantity 7), Replace(old 300, new 301, qty 150, price 900) leaves entry 301 at
price 5 and quantity 7, not at the message's price 900 and quantity 150. -/
theorem orderReplace_live_newId_counterexample :
    twoOrderState.allBuyOrders (field (replaceMsg 5 0 300 301 150 900) 11 8)
        = some ⟨1, 1, 5⟩
    ∧ field (replaceMsg 5 0 300 301 150 900) 19 8 = 301
    ∧ field (replaceMsg 5 0 300 301 150 900) 27 4 = 150
    ∧ field (replaceMsg 5 0 300 301 150 900) 31 4 = 900
    ∧ (orderReplace twoOrderState (replaceMsg 5 0 300 301 150 900)).map
          (fun s' => (s'.allBuyOrders 300, s'.allBuyOrders 301))
        = some (none, some ⟨5, 7, 5⟩)
    ∧ ¬ (∀ s' o', orderReplace twoOrderState (replaceMsg 5 0 300 301 150 900) = some s' →
          s'.allBuyOrders 301 = some o' → o'._price = 900 ∧ o'._qty = 150) := by
  refine ⟨by decide, by decide, by decide, by decide, by decide, ?_⟩
  intro h
  have hp : twoOrderState.allBuyOrders (field (replaceMsg 5 0 300 301 150 900) 11 8)
      = some ⟨1, 1, 5⟩ := by decide
  have h2 := h _ ⟨5, 7, 5⟩ (orderReplace_present twoOrderState
    (replaceMsg 5 0 300 301 150 900) _ (by decide) hp) (by decide)
  exact absurd h2.1 (by decide)

/-- C8, amended: when oldOrderId is present and newOrderId differs from it,
after `orderReplace` oldOrderId is absent; if newOrderId was not in the book it
is present with price = field at 31 and quantity = field at 27; if newOrderId
was already live its existing entry is kept as it was; no ledger changes.  In
particular Add(id 300) then Replace(old 300, new 301, qty 150, price 900)
leaves no entry 300 and entry 301 with quantity 150 and price 900. -/
theorem orderReplace_effect (s : State) (msg : List Byte) (o : Order)
    (hlen : 35 ≤ msg.length) (hp : s.allBuyOrders (field msg 11 8) = some o)
    (hne : field msg 19 8 ≠ field msg 11 8) :
    (∃ s', orderReplace s msg = some s'
      ∧ s'.allBuyOrders (field msg 11 8) = none
      ∧ (s.allBuyOrders (field msg 19 8) = none →
          ∃ o', s'.allBuyOrders (field msg 19 8) = some o'
            ∧ o'._price = field msg 31 4 ∧ o'._qty = field msg 27 4)
      ∧ (∀ o2, s.allBuyOrders (field msg 19 8) = some o2 →
          s'.allBuyOrders (field msg 19 8) = some o2)
      ∧ s'.attributedBuyOrders = s.attributedBuyOrders)
    ∧ (∃ s1 s2, addOrder State.init (addMsg 5 0 300 66 10 20) = some s1
        ∧ orderReplace s1 (replaceMsg 5 0 300 301 150 900) = some s2
        ∧ s2.allBuyOrders 300 = none
        ∧ (s2.allBuyOrders 301).map (fun o' => (o'._qty, o'._price)) = some (150, 900)) := by
  have hne' : field msg 11 8 ≠ field msg 19 8 := fun e => hne e.symm
  constructor
  · refine ⟨_, orderReplace_present s msg o hlen hp, ?_, ?_, ?_, rfl⟩
    · simp [emplace, erase, hne']
    · intro hnew
      exact ⟨⟨field msg 31 4, field msg 27 4, field msg 1 2⟩,
        by simp [emplace, erase, hne, hnew], rfl, rfl⟩
    · intro o2 ho2
      simp [emplace, erase, hne, ho2]
  · have h1 := addOrder_buy State.init (addMsg 5 0 300 66 10 20) (by decide) (by decide)
    refine ⟨_, _, h1, orderReplace_present _ (replaceMsg 5 0 300 301 150 900) ⟨20, 10, 5⟩
      (by decide) (by decide), by decide, by decide⟩

/-- C8 (amended) at orders 300 and 301 both live and Replace(old 300, new 301). -/
theorem orderReplace_effect_witness :
    ∃ s', orderReplace twoOrderState (replaceMsg 5 0 300 301 150 900) = some s'
      ∧ s'.allBuyOrders (field (replaceMsg 5 0 300 301 150 900) 11 8) = none
      ∧ (twoOrderState.allBuyOrders (field (replaceMsg 5 0 300 301 150 900) 19 8) = none →
          ∃ o', s'.allBuyOrders (field (replaceMsg 5 0 300 301 150 900) 19 8) = some o'
            ∧ o'._price = field (replaceMsg 5 0 300 301 150 900) 31 4
            ∧ o'._qty = field (replaceMsg 5 0 300 301 150 900) 27 4)
      ∧ (∀ o2, twoOrderState.allBuyOrders (field (replaceMsg 5 0 300 301 150 900) 19 8)
            = some o2 →
          s'.allBuyOrders (field (replaceMsg 5 0 300 301 150 900) 19 8) = some o2)
      ∧ s'.attributedBuyOrders = twoOrderState.attributedBuyOrders :=
  (orderReplace_effect twoOrderState (replaceMsg 5 0 300 301 150 900) ⟨1, 1, 5⟩ (by decide)
    (by decide) (by decide)).1

/-- C9 as stated fails: with order 300 resting under locate 5, a Replace
message carrying locate 9 inserts entry 301 with locate 9, not 5. -/
theorem orderReplace_locate_counterexample :
    oneOrderState.allBuyOrders (field (replaceMsg 9 0 300 301 150 900) 11 8)
        = some ⟨1, 1, 5⟩
    ∧ oneOrderState.allBuyOrders (field (replaceMsg 9 0 300 301 150 900) 19 8) = none
    ∧ field (replaceMsg 9 0 300 301 150 900) 1 2 = 9
    ∧ (orderReplace oneOrderState (replaceMsg 9 0 300 301 150 900)).map
          (fun s' => s'.allBuyOrders 301)
        = some (some ⟨900, 150, 9⟩)
    ∧ ¬ (∀ s' o', orderReplace oneOrderState (replaceMsg 9 0 300 301 150 900) = some s' →
          s'.allBuyOrders 301 = some o' → o'._id = 5) := by
  refine ⟨by decide, by decide, by decide, by decide, ?_⟩
  intro h
  have hp : oneOrderState.allBuyOrders (field (replaceMsg 9 0 300 301 150 900) 11 8)
      = some ⟨1, 1, 5⟩ := by decide
  have h2 := h _ ⟨900, 150, 9⟩ (orderReplace_present oneOrderState
    (replaceMsg 9 0 300 301 150 900) _ (by decide) hp) (by decide)
  exact absurd h2 (by decide)

/-- C9, amended: when oldOrderId is present and newOrderId is not in the book,
the entry inserted for newOrderId carries the locate value of the Replace
message itself (field at offset 1), whatever the locate of the replaced order. -/
theorem orderReplace_locate (s : State) (msg : List Byte) (o : Order)
    (hlen : 35 ≤ msg.length) (hp : s.allBuyOrders (field msg 11 8) = some o)
    (hnew : s.allBuyOrders (field msg 19 8) = none) :
    ∃ s' o', orderReplace s msg = some s'
      ∧ s'.allBuyOrders (field msg 19 8) = some o'
      ∧ o'._id = field msg 1 2 := by
  refine ⟨_, ⟨field msg 31 4, field msg 27 4, field msg 1 2⟩,
    orderReplace_present s msg o hlen hp, ?_, rfl⟩
  by_cases hne : field msg 19 8 = field msg 11 8
  · rw [hne, hp] at hnew
    cases hnew
  · simp [emplace, erase, hne, hnew]

/-- C9 (amended) at order 300 resting under locate 5 and a Replace carrying locate 9. -/
theorem orderReplace_locate_witness :
    ∃ s' o', orderReplace oneOrderState (replaceMsg 9 0 300 301 150 900) = some s'
      ∧ s'.allBuyOrders (field (replaceMsg 9 0 300 301 150 900) 19 8) = some o'
      ∧ o'._id = field (replaceMsg 9 0 300 301 150 900) 1 2 :=
  orderReplace_locate oneOrderState (replaceMsg 9 0 300 301 150 900) ⟨1, 1, 5⟩ (by decide)
    (by decide) (by decide)

/-! ## C10: unknown order reference -/

/-- C10: for an Execute, ExecutePrice, Cancel, Delete or Replace message whose
referenced order id (field at 11) is absent from the book, the order book and
every ledger are the same after the handler as before; in particular Replace
on an absent oldOrderId does not insert newOrderId. -/
theorem absent_reference_keeps_book_and_ledgers (s : State) (msg : List Byte)
    (ha : s.allBuyOrders (field msg 11 8) = none) :
    (23 ≤ msg.length → ∃ s', orderExec s msg = some s'
        ∧ s'.allBuyOrders = s.allBuyOrders
        ∧ s'.attributedBuyOrders = s.attributedBuyOrders)
    ∧ (36 ≤ msg.length → ∃ s', orderExecPrice s msg = some s'
        ∧ s'.allBuyOrders = s.allBuyOrders
        ∧ s'.attributedBuyOrders = s.attributedBuyOrders)
    ∧ (23 ≤ msg.length → ∃ s', orderCancel s msg = some s'
        ∧ s'.allBuyOrders = s.allBuyOrders
        ∧ s'.attributedBuyOrders = s.attributedBuyOrders)
    ∧ (19 ≤ msg.length → ∃ s', orderDelete s msg = some s'
        ∧ s'.allBuyOrders = s.allBuyOrders
        ∧ s'.attributedBuyOrders = s.attributedBuyOrders)
    ∧ (35 ≤ msg.length → ∃ s', orderReplace s msg = some s'
        ∧ s'.allBuyOrders = s.allBuyOrders
        ∧ s'.attributedBuyOrders = s.attributedBuyOrders
        ∧ s'.allBuyOrders (field msg 19 8) = s.allBuyOrders (field msg 19 8)) := by
  refine ⟨?_, ?_, ?_, ?_, ?_⟩
  · intro hlen
    exact ⟨_, orderExec_absent s msg hlen ha, rfl, rfl⟩
  · intro hlen
    exact ⟨_, orderExecPrice_absent s msg hlen ha, rfl, rfl⟩
  · intro hlen
    exact ⟨_, orderCancel_absent s msg hlen ha, rfl, rfl⟩
  · intro hlen
    refine ⟨_, orderDelete_eq s msg hlen, ?_, rfl⟩
    funext k
    by_cases hk : k = field msg 11 8
    · simp [erase, hk, ha]
    · simp [erase, hk]
  · intro hlen
    exact ⟨_, orderReplace_absent s msg hlen ha, rfl, rfl, rfl⟩

/-- C10 at order 7 resting and messages that reference the absent id 8. -/
theorem absent_reference_keeps_book_and_ledgers_witness :
    (∃ s', orderExec restingState (execMsg 1 0 8 40) = some s'
        ∧ s'.allBuyOrders = restingState.allBuyOrders
        ∧ s'.attributedBuyOrders = restingState.attributedBuyOrders)
    ∧ (∃ s', orderExecPrice restingState (execPriceMsg 1 0 8 40 99) = some s'
        ∧ s'.allBuyOrders = restingState.allBuyOrders
        ∧ s'.attributedBuyOrders = restingState.attributedBuyOrders)
    ∧ (∃ s', orderCancel restingState (cancelMsg 1 0 8 40) = some s'
        ∧ s'.allBuyOrders = restingState.allBuyOrders
        ∧ s'.attributedBuyOrders = restingState.attributedBuyOrders)
    ∧ (∃ s', orderDelete restingState (deleteMsg 1 0 8) = some s'
        ∧ s'.allBuyOrders = restingState.allBuyOrders
        ∧ s'.attributedBuyOrders = restingState.attributedBuyOrders)
    ∧ (∃ s', orderReplace restingState (replaceMsg 1 0 8 9 150 900) = some s'
        ∧ s'.allBuyOrders = restingState.allBuyOrders
        ∧ s'.attributedBuyOrders = restingState.attributedBuyOrders
        ∧ s'.allBuyOrders (field (replaceMsg 1 0 8 9 150 900) 19 8)
            = restingState.allBuyOrders (field (replaceMsg 1 0 8 9 150 900) 19 8)) :=
  ⟨(absent_reference_keeps_book_and_ledgers restingState (execMsg 1 0 8 40)
      (by decide)).1 (by decide),
   (absent_reference_keeps_book_and_ledgers restingState (execPriceMsg 1 0 8 40 99)
      (by decide)).2.1 (by decide),
   (absent_reference_keeps_book_and_ledgers restingState (cancelMsg 1 0 8 40)
      (by decide)).2.2.1 (by decide),
   (absent_reference_keeps_book_and_ledgers restingState (deleteMsg 1 0 8)
      (by decide)).2.2.2.1 (by decide),
   (absent_reference_keeps_book_and_ledgers restingState (replaceMsg 1 0 8 9 150 900)
      (by decide)).2.2.2.2 (by decide)⟩

/-! ## Handler calls in general

What the remaining handlers compute, and what a successful call tells about the
length of its message. -/

theorem systemMsg_eq (s : State) (msg : List Byte) (h : 13 ≤ msg.length) :
    systemMsg s msg = some (if msg[11]? = some 69
      then { s with CURRTIME := field msg 5 6, END := true }
      else { s with CURRTIME := field msg 5 6 }) := by
  have hc : msg[11]? = some (msg[11]) := List.getElem?_eq_getElem (by omega)
  by_cases he : msg[11] = 69
  · simp [systemMsg, reinterpret6bytes_drop msg 5 (by omega), hc, he]
  · simp [systemMsg, reinterpret6bytes_drop msg 5 (by omega), hc, he]

theorem stockRelatedMsg_eq (s : State) (msg : List Byte) (h : 19 ≤ msg.length) :
    stockRelatedMsg s msg = some { s with
      stockSymbols := setAt s.stockSymbols (field msg 1 2) ((msg.drop 11).take 8)
      attributedBuyOrders := setAt s.attributedBuyOrders (field msg 1 2) [] } := by
  have h8 : 8 ≤ msg.length - 11 := by omega
  simp [-List.drop_one, stockRelatedMsg, reinterpret2bytes_drop msg 1 (by omega), h8]

theorem reinterpret2bytes_some (w : List Byte) (v : Nat) (h : reinterpret2bytes w = some v) :
    2 ≤ w.length := by
  unfold reinterpret2bytes at h
  by_cases hl : 2 ≤ w.length
  · exact hl
  · simp [hl] at h

theorem reinterpret4bytes_some (w : List Byte) (v : Nat) (h : reinterpret4bytes w = some v) :
    4 ≤ w.length := by
  unfold reinterpret4bytes at h
  by_cases hl : 4 ≤ w.length
  · exact hl
  · simp [hl] at h

theorem reinterpret6bytes_some (w : List Byte) (v : Nat) (h : reinterpret6bytes w = some v) :
    8 ≤ w.length := by
  unfold reinterpret6bytes at h
  by_cases hl : 8 ≤ w.length
  · exact hl
  · simp [hl] at h

theorem reinterpret8bytes_some (w : List Byte) (v : Nat) (h : reinterpret8bytes w = some v) :
    8 ≤ w.length := by
  unfold reinterpret8bytes at h
  by_cases hl : 8 ≤ w.length
  · exact hl
  · simp [hl] at h

theorem systemMsg_length (s s' : State) (msg : List Byte) (h : systemMsg s msg = some s') :
    13 ≤ msg.length := by
  unfold systemMsg at h
  simp only [Option.bind_eq_bind, Option.bind_eq_some] at h
  obtain ⟨t, ht, -⟩ := h
  have := reinterpret6bytes_some _ _ ht
  rw [List.length_drop] at this
  omega

theorem stockRelatedMsg_length (s s' : State) (msg : List Byte)
    (h : stockRelatedMsg s msg = some s') : 19 ≤ msg.length := by
  by_cases hl : 8 ≤ msg.length - 11
  · omega
  · simp [-List.drop_one, stockRelatedMsg, hl] at h

theorem addOrder_length (s s' : State) (msg : List Byte) (h : addOrder s msg = some s') :
    20 ≤ msg.length ∧ (msg[19]? = some 66 → 36 ≤ msg.length) := by
  unfold addOrder at h
  simp only [Option.bind_eq_bind, Option.bind_eq_some] at h
  obtain ⟨l, -, t, -, i, -, side, hside, h⟩ := h
  have h20 : 19 < msg.length := by
    by_contra hc
    rw [List.getElem?_eq_none (by omega)] at hside
    cases hside
  refine ⟨h20, ?_⟩
  intro hB
  rw [hB] at hside
  cases hside
  simp only [if_true, Option.bind_eq_bind, Option.bind_eq_some] at h
  obtain ⟨p, hp, -⟩ := h
  have := reinterpret4bytes_some _ _ hp
  rw [List.length_drop] at this
  omega

theorem orderExec_length (s s' : State) (msg : List Byte) (h : orderExec s msg = some s') :
    23 ≤ msg.length := by
  unfold orderExec at h
  simp only [Option.bind_eq_bind, Option.bind_eq_some] at h
  obtain ⟨l, -, t, -, i, -, q, hq, -⟩ := h
  have := reinterpret4bytes_some _ _ hq
  rw [List.length_drop] at this
  omega

theorem orderExecPrice_length (s s' : State) (msg : List Byte)
    (h : orderExecPrice s msg = some s') : 36 ≤ msg.length := by
  unfold orderExecPrice at h
  simp only [Option.bind_eq_bind, Option.bind_eq_some] at h
  obtain ⟨l, -, t, -, i, -, q, -, p, hp, -⟩ := h
  have := reinterpret4bytes_some _ _ hp
  rw [List.length_drop] at this
  omega

theorem orderCancel_length (s s' : State) (msg : List Byte) (h : orderCancel s msg = some s') :
    23 ≤ msg.length := by
  unfold orderCancel at h
  simp only [Option.bind_eq_bind, Option.bind_eq_some] at h
  obtain ⟨i, -, q, hq, -⟩ := h
  have := reinterpret4bytes_some _ _ hq
  rw [List.length_drop] at this
  omega

theorem orderDelete_length (s s' : State) (msg : List Byte) (h : orderDelete s msg = some s') :
    19 ≤ msg.length := by
  unfold orderDelete at h
  simp only [Option.bind_eq_bind, Option.bind_eq_some] at h
  obtain ⟨i, hi, -⟩ := h
  have := reinterpret8bytes_some _ _ hi
  rw [List.length_drop] at this
  omega

theorem orderReplace_length (s s' : State) (msg : List Byte)
    (h : orderReplace s msg = some s') : 35 ≤ msg.length := by
  unfold orderReplace at h
  simp only [Option.bind_eq_bind, Option.bind_eq_some] at h
  obtain ⟨l, -, i, -, j, -, q, -, p, hp, -⟩ := h
  have := reinterpret4bytes_some _ _ hp
  rw [List.length_drop] at this
  omega

theorem setAt_setAt {α : Type} (a : LocateId → α) (l : LocateId) (v : α) :
    setAt (setAt a l v) l v = setAt a l v := by
  funext j
  by_cases hj : j = l <;> simp [setAt, hj]

theorem sub32_wrap (q c : Nat) (hc : c < 2 ^ 32) (hqc : q < c) :
    sub32 q c = q + 2 ^ 32 - c := by
  rw [sub32_eq q c hc]
  exact Nat.mod_eq_of_lt (by omega)

/-! ### Every successful call, by cases -/

theorem systemMsg_inv (s s' : State) (msg : List Byte) (h : systemMsg s msg = some s') :
    s' = { s with CURRTIME := field msg 5 6, END := true } ∧ msg[11]? = some 69
    ∨ s' = { s with CURRTIME := field msg 5 6 } ∧ msg[11]? ≠ some 69 := by
  rw [systemMsg_eq s msg (systemMsg_length s s' msg h)] at h
  by_cases hc : msg[11]? = some 69
  · rw [if_pos hc] at h
    exact Or.inl ⟨(Option.some.inj h).symm, hc⟩
  · rw [if_neg hc] at h
    exact Or.inr ⟨(Option.some.inj h).symm, hc⟩

theorem stockRelatedMsg_inv (s s' : State) (msg : List Byte)
    (h : stockRelatedMsg s msg = some s') :
    s' = { s with
      stockSymbols := setAt s.stockSymbols (field msg 1 2) ((msg.drop 11).take 8)
      attributedBuyOrders := setAt s.attributedBuyOrders (field msg 1 2) [] } := by
  rw [stockRelatedMsg_eq s msg (stockRelatedMsg_length s s' msg h)] at h
  exact (Option.some.inj h).symm

theorem addOrder_inv (s s' : State) (msg : List Byte) (h : addOrder s msg = some s') :
    s' = { s with
        CURRTIME := field msg 5 6
        allBuyOrders := emplace s.allBuyOrders (field msg 11 8)
          ⟨field msg 32 4, field msg 20 4, field msg 1 2⟩ } ∧ msg[19]? = some 66
    ∨ s' = { s with CURRTIME := field msg 5 6 } ∧ msg[19]? ≠ some 66 := by
  obtain ⟨h20, h36⟩ := addOrder_length s s' msg h
  by_cases hB : msg[19]? = some 66
  · rw [addOrder_buy s msg (h36 hB) hB] at h
    exact Or.inl ⟨(Option.some.inj h).symm, hB⟩
  · rw [addOrder_other s msg h20 hB] at h
    exact Or.inr ⟨(Option.some.inj h).symm, hB⟩

theorem orderExec_inv (s s' : State) (msg : List Byte) (h : orderExec s msg = some s') :
    s.allBuyOrders (field msg 11 8) = none ∧ s' = { s with CURRTIME := field msg 5 6 }
    ∨ ∃ o, s.allBuyOrders (field msg 11 8) = some o ∧ s' = { s with
        CURRTIME := field msg 5 6
        allBuyOrders :=
          if field msg 19 4 = o._qty then erase s.allBuyOrders (field msg 11 8)
          else assign s.allBuyOrders (field msg 11 8)
            { o with _qty := sub32 o._qty (field msg 19 4) }
        attributedBuyOrders := push_back s.attributedBuyOrders (field msg 1 2)
          ⟨o._price, field msg 19 4, field msg 1 2⟩ } := by
  have hlen := orderExec_length s s' msg h
  cases hp : s.allBuyOrders (field msg 11 8) with
  | none =>
    rw [orderExec_absent s msg hlen hp] at h
    exact Or.inl ⟨rfl, (Option.some.inj h).symm⟩
  | some o =>
    rw [orderExec_present s msg o hlen hp] at h
    exact Or.inr ⟨o, rfl, (Option.some.inj h).symm⟩

theorem orderExecPrice_inv (s s' : State) (msg : List Byte)
    (h : orderExecPrice s msg = some s') :
    s.allBuyOrders (field msg 11 8) = none ∧ s' = { s with CURRTIME := field msg 5 6 }
    ∨ ∃ o, s.allBuyOrders (field msg 11 8) = some o ∧ s' = { s with
        CURRTIME := field msg 5 6
        allBuyOrders :=
          if field msg 19 4 = o._qty then erase s.allBuyOrders (field msg 11 8)
          else assign s.allBuyOrders (field msg 11 8)
            { o with _qty := sub32 o._qty (field msg 19 4) }
        attributedBuyOrders := push_back s.attributedBuyOrders (field msg 1 2)
          ⟨field msg 32 4, field msg 19 4, field msg 1 2⟩ } := by
  have hlen := orderExecPrice_length s s' msg h
  cases hp : s.allBuyOrders (field msg 11 8) with
  | none =>
    rw [orderExecPrice_absent s msg hlen hp] at h
    exact Or.inl ⟨rfl, (Option.some.inj h).symm⟩
  | some o =>
    rw [orderExecPrice_present s msg o hlen hp] at h
    exact Or.inr ⟨o, rfl, (Option.some.inj h).symm⟩

theorem orderCancel_inv (s s' : State) (msg : List Byte) (h : orderCancel s msg = some s') :
    s.allBuyOrders (field msg 11 8) = none ∧ s' = s
    ∨ ∃ o, s.allBuyOrders (field msg 11 8) = some o ∧ s' = { s with
        allBuyOrders :=
          if sub32 o._qty (field msg 19 4) = 0 then
            erase (assign s.allBuyOrders (field msg 11 8)
              { o with _qty := sub32 o._qty (field msg 19 4) }) (field msg 11 8)
          else assign s.allBuyOrders (field msg 11 8)
            { o with _qty := sub32 o._qty (field msg 19 4) } } := by
  have hlen := orderCancel_length s s' msg h
  cases hp : s.allBuyOrders (field msg 11 8) with
  | none =>
    rw [orderCancel_absent s msg hlen hp] at h
    exact Or.inl ⟨rfl, (Option.some.inj h).symm⟩
  | some o =>
    rw [orderCancel_present s msg o hlen hp] at h
    exact Or.inr ⟨o, rfl, (Option.some.inj h).symm⟩

theorem orderDelete_inv (s s' : State) (msg : List Byte) (h : orderDelete s msg = some s') :
    s' = { s with allBuyOrders := erase s.allBuyOrders (field msg 11 8) } := by
  rw [orderDelete_eq s msg (orderDelete_length s s' msg h)] at h
  exact (Option.some.inj h).symm

theorem orderReplace_inv (s s' : State) (msg : List Byte) (h : orderReplace s msg = some s') :
    s.allBuyOrders (field msg 11 8) = none ∧ s' = s
    ∨ ∃ o, s.allBuyOrders (field msg 11 8) = some o ∧ s' = { s with
        allBuyOrders := emplace (erase s.allBuyOrders (field msg 11 8)) (field msg 19 8)
          ⟨field msg 31 4, field msg 27 4, field msg 1 2⟩ } := by
  have hlen := orderReplace_length s s' msg h
  cases hp : s.allBuyOrders (field msg 11 8) with
  | none =>
    rw [orderReplace_absent s msg hlen hp] at h
    exact Or.inl ⟨rfl, (Option.some.inj h).symm⟩
  | some o =>
    rw [orderReplace_present s msg o hlen hp] at h
    exact Or.inr ⟨o, rfl, (Option.some.inj h).symm⟩

theorem trade_inv (s s' : State) (msg : List Byte) :
    (nonCrossTrade s msg = some s' → s' = s)
    ∧ (crossTrade s msg = some s' → s' = s)
    ∧ (brokenTrade s msg = some s' → s' = s) := by
  refine ⟨?_, ?_, ?_⟩ <;> intro h <;> exact (Option.some.inj h).symm

/-- A handler call on a message of at least `minLen` bytes returns a state. -/
theorem call_isSome (k : Handler) (s : State) (msg : List Byte)
    (hlen : k.minLen ≤ msg.length) : ∃ s', k.call s msg = some s' := by
  cases k <;> simp only [Handler.minLen] at hlen <;> simp only [Handler.call]
  · exact ⟨_, systemMsg_eq s msg hlen⟩
  · exact ⟨_, stockRelatedMsg_eq s msg hlen⟩
  · by_cases hB : msg[19]? = some 66
    · exact ⟨_, addOrder_buy s msg hlen hB⟩
    · exact ⟨_, addOrder_other s msg (by omega) hB⟩
  · cases hp : s.allBuyOrders (field msg 11 8) with
    | none => exact ⟨_, orderExec_absent s msg hlen hp⟩
    | some o => exact ⟨_, orderExec_present s msg o hlen hp⟩
  · cases hp : s.allBuyOrders (field msg 11 8) with
    | none => exact ⟨_, orderExecPrice_absent s msg hlen hp⟩
    | some o => exact ⟨_, orderExecPrice_present s msg o hlen hp⟩
  · cases hp : s.allBuyOrders (field msg 11 8) with
    | none => exact ⟨_, orderCancel_absent s msg hlen hp⟩
    | some o => exact ⟨_, orderCancel_present s msg o hlen hp⟩
  · exact ⟨_, orderDelete_eq s msg hlen⟩
  · cases hp : s.allBuyOrders (field msg 11 8) with
    | none => exact ⟨_, orderReplace_absent s msg hlen hp⟩
    | some o => exact ⟨_, orderReplace_present s msg o hlen hp⟩
  · exact ⟨s, rfl⟩
  · exact ⟨s, rfl⟩
  · exact ⟨s, rfl⟩

/-- A sequence of calls, each on a message of at least `minLen` bytes, returns a state. -/
theorem run_isSome (calls : List (Handler × List Byte))
    (hlen : ∀ c ∈ calls, c.1.minLen ≤ c.2.length) (s : State) :
    ∃ s', run s calls = some s' := by
  induction calls generalizing s with
  | nil => exact ⟨s, rfl⟩
  | cons c rest ih =>
    obtain ⟨k, m⟩ := c
    obtain ⟨s1, h1⟩ := call_isSome k s m (hlen (k, m) (List.mem_cons_self _ _))
    obtain ⟨s2, h2⟩ := ih (fun c hc => hlen c (List.mem_cons_of_mem _ hc)) s1
    exact ⟨s2, by simp [run, h1, h2]⟩

/-- An invariant kept by every call of a sequence holds after the sequence. -/
theorem run_invariant (P : State → Prop) (Q : Handler × List Byte → Prop)
    (step : ∀ c s s', Q c → P s → c.1.call s c.2 = some s' → P s')
    (calls : List (Handler × List Byte)) (hQ : ∀ c ∈ calls, Q c)
    (s s' : State) (hs : P s) (h : run s calls = some s') : P s' := by
  induction calls generalizing s with
  | nil =>
    simp only [run] at h
    cases h
    exact hs
  | cons c rest ih =>
    obtain ⟨k, m⟩ := c
    simp only [run, Option.bind_eq_some] at h
    obtain ⟨s1, h1, h2⟩ := h
    exact ih (fun c hc => hQ c (List.mem_cons_of_mem _ hc)) s1
      (step (k, m) s s1 (hQ (k, m) (List.mem_cons_self _ _)) hs h1) h2

/-! ## C12: stock directory -/

/-- C12: for a stock-directory message with locate `l` (field at 1), after
`stockRelatedMsg` the symbol of `l` is the 8 bytes at offsets 11..18 and the
ledger of `l` is empty, whatever they were before; the symbol and ledger of
every other locate, the order book, the clock and the end flag are unchanged;
and applying the same message again to the result gives the same state. -/
theorem stockRelatedMsg_registers (s : State) (msg : List Byte) (hlen : 19 ≤ msg.length) :
    ∃ s', stockRelatedMsg s msg = some s'
      ∧ s'.stockSymbols (field msg 1 2) = (msg.drop 11).take 8
      ∧ ((msg.drop 11).take 8).length = 8
      ∧ s'.attributedBuyOrders (field msg 1 2) = []
      ∧ (∀ l, l ≠ field msg 1 2 →
          s'.stockSymbols l = s.stockSymbols l
          ∧ s'.attributedBuyOrders l = s.attributedBuyOrders l)
      ∧ s'.allBuyOrders = s.allBuyOrders
      ∧ s'.CURRTIME = s.CURRTIME
      ∧ s'.LASTPRINTED = s.LASTPRINTED
      ∧ s'.END = s.END
      ∧ stockRelatedMsg s' msg = some s' := by
  refine ⟨_, stockRelatedMsg_eq s msg hlen, by simp [setAt], ?_, by simp [setAt], ?_,
    rfl, rfl, rfl, rfl, ?_⟩
  · rw [List.length_take, List.length_drop]
    omega
  · intro l hl
    simp [setAt, hl]
  · rw [stockRelatedMsg_eq _ msg hlen]
    simp only [setAt_setAt]

/-- C12 at a state where locate 5 is already registered and its ledger holds a record. -/
theorem stockRelatedMsg_registers_witness :
    filledState.attributedBuyOrders 5 = [⟨10, 40, 5⟩]
    ∧ field (stockDirMsg 5 0 [66, 66, 80, 76, 32, 32, 32, 32]) 1 2 = 5
    ∧ ∃ s', stockRelatedMsg filledState (stockDirMsg 5 0 [66, 66, 80, 76, 32, 32, 32, 32])
          = some s'
        ∧ s'.stockSymbols 5 = [66, 66, 80, 76, 32, 32, 32, 32]
        ∧ s'.attributedBuyOrders 5 = []
        ∧ stockRelatedMsg s' (stockDirMsg 5 0 [66, 66, 80, 76, 32, 32, 32, 32]) = some s' := by
  obtain ⟨s', h1, h2, -, h3, -, -, -, -, -, h4⟩ :=
    stockRelatedMsg_registers filledState (stockDirMsg 5 0 [66, 66, 80, 76, 32, 32, 32, 32])
      (by decide)
  have e : field (stockDirMsg 5 0 [66, 66, 80, 76, 32, 32, 32, 32]) 1 2 = 5 := by decide
  rw [e] at h2 h3
  exact ⟨by decide, e, s', h1, by rw [h2]; decide, h3, h4⟩

/-! ## C15: the 6-byte reader against the 8-byte reader -/

/-- C15 as stated fails: at the cursor `01 02 03 04 05 06 07 08` the 6-byte
reader returns `0x010203040506`, while the 8-byte word modulo `2 ^ 48` is
`0x030405060708`. -/
theorem reinterpret6bytes_low48_counterexample :
    reinterpret6bytes [1, 2, 3, 4, 5, 6, 7, 8] = some 1108152157446
    ∧ (reinterpret8bytes [1, 2, 3, 4, 5, 6, 7, 8]).map (fun v => v % 2 ^ 48)
        = some 3315799033608
    ∧ reinterpret6bytes [1, 2, 3, 4, 5, 6, 7, 8]
        ≠ (reinterpret8bytes [1, 2, 3, 4, 5, 6, 7, 8]).map (fun v => v % 2 ^ 48) := by
  refine ⟨by decide, by decide, by decide⟩

/-- C15, amended: on a cursor holding at least 8 bytes, `reinterpret6bytes`
returns the high 48 bits of the 8-byte big-endian word read at the cursor, the
low 16 bits (the bytes at positions 6 and 7) being discarded:
`reinterpret6bytes w = reinterpret8bytes w / 2 ^ 16`. -/
theorem reinterpret6bytes_high48 (w : List Byte) (h : 8 ≤ w.length) :
    ∃ v, reinterpret8bytes w = some v ∧ reinterpret6bytes w = some (v / 2 ^ 16) := by
  have h8 := reinterpret8bytes_eq w h
  have hlt : beValue (w.take 8) < 2 ^ 64 := by
    have hl : (w.take 8).length = 8 := by rw [List.length_take]; omega
    have := beValue_lt (w.take 8)
    rw [hl] at this
    exact lt_of_lt_of_le this (by norm_num)
  have hb : bswap64 (loadLE (w.take 8)) = beValue (w.take 8) := by
    simp only [reinterpret8bytes, h, if_true] at h8
    exact Option.some.inj h8
  refine ⟨_, h8, ?_⟩
  simp only [reinterpret6bytes, h, if_true, hb]
  rw [and_mask6_shift _ hlt]

/-- C15 (amended) at the cursor `01 02 03 04 05 06 07 08`. -/
theorem reinterpret6bytes_high48_witness :
    ∃ v, reinterpret8bytes [1, 2, 3, 4, 5, 6, 7, 8] = some v
      ∧ reinterpret6bytes [1, 2, 3, 4, 5, 6, 7, 8] = some (v / 2 ^ 16) :=
  reinterpret6bytes_high48 [1, 2, 3, 4, 5, 6, 7, 8] (by decide)

/-! ## C16: Cancel beyond the resting quantity -/

/-- C16: when the order id is present with quantity `q` (a `uint32_t`) and the
Cancel message carries `cancelQty = c > q`, the order stays in the book with
quantity `(q - c) mod 2 ^ 32 = q + 2 ^ 32 - c`, which is non-zero and larger
than `q`, and with its price and locate unchanged. -/
theorem orderCancel_wraps (s : State) (msg : List Byte) (o : Order) (hlen : 23 ≤ msg.length)
    (hp : s.allBuyOrders (field msg 11 8) = some o) (hq : o._qty < 2 ^ 32)
    (hc : o._qty < field msg 19 4) :
    ∃ s', orderCancel s msg = some s'
      ∧ s'.allBuyOrders (field msg 11 8)
          = some ⟨o._price, o._qty + 2 ^ 32 - field msg 19 4, o._id⟩
      ∧ ((o._qty : Int) - (field msg 19 4 : Int)) % 2 ^ 32
          = ((o._qty + 2 ^ 32 - field msg 19 4 : Nat) : Int)
      ∧ o._qty + 2 ^ 32 - field msg 19 4 ≠ 0
      ∧ o._qty < o._qty + 2 ^ 32 - field msg 19 4 := by
  have he := field4_lt msg 19
  have hw := sub32_wrap o._qty (field msg 19 4) he hc
  have hz : ¬ o._qty + 2 ^ 32 - field msg 19 4 = 0 := by omega
  refine ⟨_, orderCancel_present s msg o hlen hp, ?_, ?_, hz, by omega⟩
  · simp only [hw]
    rw [if_neg hz]
    simp [assign]
  · omega

/-- C16 at order 7 resting with quantity 100 and a Cancel of 200. -/
theorem orderCancel_wraps_witness :
    ∃ s', orderCancel restingState (cancelMsg 1 0 7 200) = some s'
      ∧ s'.allBuyOrders (field (cancelMsg 1 0 7 200) 11 8)
          = some ⟨10, 100 + 2 ^ 32 - field (cancelMsg 1 0 7 200) 19 4, 1⟩
      ∧ ((100 : Int) - (field (cancelMsg 1 0 7 200) 19 4 : Int)) % 2 ^ 32
          = ((100 + 2 ^ 32 - field (cancelMsg 1 0 7 200) 19 4 : Nat) : Int)
      ∧ 100 + 2 ^ 32 - field (cancelMsg 1 0 7 200) 19 4 ≠ 0
      ∧ 100 < 100 + 2 ^ 32 - field (cancelMsg 1 0 7 200) 19 4 :=
  orderCancel_wraps restingState (cancelMsg 1 0 7 200) ⟨10, 100, 1⟩ (by decide) (by decide)
    (by norm_num) (by decide)

/-! ## C13, C14: the session clock and the end flag -/

theorem call_clock (k : Handler) (s s' : State) (msg : List Byte)
    (h : k.call s msg = some s') :
    s'.CURRTIME = if k ∈ [Handler.system, Handler.add, Handler.exec, Handler.execPrice]
      then field msg 5 6 else s.CURRTIME := by
  cases k <;> simp only [Handler.call] at h
  · rcases systemMsg_inv s s' msg h with ⟨rfl, -⟩ | ⟨rfl, -⟩ <;> simp
  · rw [stockRelatedMsg_inv s s' msg h]; simp
  · rcases addOrder_inv s s' msg h with ⟨rfl, -⟩ | ⟨rfl, -⟩ <;> simp
  · rcases orderExec_inv s s' msg h with ⟨-, rfl⟩ | ⟨o, -, rfl⟩ <;> simp
  · rcases orderExecPrice_inv s s' msg h with ⟨-, rfl⟩ | ⟨o, -, rfl⟩ <;> simp
  · rcases orderCancel_inv s s' msg h with ⟨-, rfl⟩ | ⟨o, -, rfl⟩ <;> simp
  · rw [orderDelete_inv s s' msg h]; simp
  · rcases orderReplace_inv s s' msg h with ⟨-, rfl⟩ | ⟨o, -, rfl⟩ <;> simp
  · rw [(trade_inv s s' msg).1 h]; simp
  · rw [(trade_inv s s' msg).2.1 h]; simp
  · rw [(trade_inv s s' msg).2.2 h]; simp

theorem call_END (k : Handler) (s s' : State) (msg : List Byte)
    (h : k.call s msg = some s') (he : s.END = true) : s'.END = true := by
  cases k <;> simp only [Handler.call] at h
  · rcases systemMsg_inv s s' msg h with ⟨rfl, -⟩ | ⟨rfl, -⟩
    · rfl
    · exact he
  · rw [stockRelatedMsg_inv s s' msg h]; exact he
  · rcases addOrder_inv s s' msg h with ⟨rfl, -⟩ | ⟨rfl, -⟩ <;> exact he
  · rcases orderExec_inv s s' msg h with ⟨-, rfl⟩ | ⟨o, -, rfl⟩ <;> exact he
  · rcases orderExecPrice_inv s s' msg h with ⟨-, rfl⟩ | ⟨o, -, rfl⟩ <;> exact he
  · rcases orderCancel_inv s s' msg h with ⟨-, rfl⟩ | ⟨o, -, rfl⟩ <;> exact he
  · rw [orderDelete_inv s s' msg h]; exact he
  · rcases orderReplace_inv s s' msg h with ⟨-, rfl⟩ | ⟨o, -, rfl⟩ <;> exact he
  · rw [(trade_inv s s' msg).1 h]; exact he
  · rw [(trade_inv s s' msg).2.1 h]; exact he
  · rw [(trade_inv s s' msg).2.2 h]; exact he

/-- C13 as stated fails: with the clock at 100, a system-event message whose
timestamp is 50 sets the clock to 50, below its previous value. -/
theorem clock_regression_counterexample :
    lateState.CURRTIME = 100
    ∧ field (systemEventMsg 50 79) 5 6 = 50
    ∧ (systemMsg lateState (systemEventMsg 50 79)).map (fun s' => s'.CURRTIME) = some 50
    ∧ ¬ (∀ s', systemMsg lateState (systemEventMsg 50 79) = some s' →
          lateState.CURRTIME ≤ s'.CURRTIME) := by
  refine ⟨rfl, by decide, by decide, ?_⟩
  intro h
  obtain ⟨s', hs⟩ := call_isSome Handler.system lateState (systemEventMsg 50 79) (by decide)
  have h1 := h s' hs
  have h2 := call_clock Handler.system lateState s' (systemEventMsg 50 79) hs
  have e : field (systemEventMsg 50 79) 5 6 = 50 := by decide
  simp only [List.mem_cons, true_or, if_true, e] at h2
  rw [h2] at h1
  exact absurd h1 (by decide)

/-- C13, amended: `systemMsg`, `addOrder`, `orderExec` and `orderExecPrice` set
currentTime to the message's timestamp (field at 5), whether it is smaller or
larger than the current value, so currentTime does not decrease exactly when
the timestamp is at least currentTime; every other handler leaves currentTime
unchanged. -/
theorem clock_set_to_timestamp (k : Handler) (s : State) (msg : List Byte)
    (hlen : k.minLen ≤ msg.length) :
    ∃ s', k.call s msg = some s'
      ∧ (k ∈ [Handler.system, Handler.add, Handler.exec, Handler.execPrice] →
          s'.CURRTIME = field msg 5 6
          ∧ (s.CURRTIME ≤ s'.CURRTIME ↔ s.CURRTIME ≤ field msg 5 6))
      ∧ (k ∉ [Handler.system, Handler.add, Handler.exec, Handler.execPrice] →
          s'.CURRTIME = s.CURRTIME) := by
  obtain ⟨s', hs⟩ := call_isSome k s msg hlen
  have hc := call_clock k s s' msg hs
  refine ⟨s', hs, ?_, ?_⟩
  · intro hk
    rw [if_pos hk] at hc
    exact ⟨hc, by rw [hc]⟩
  · intro hk
    rw [if_neg hk] at hc
    exact hc

/-- C13 (amended) at the clock at 100 and a system event stamped 50. -/
theorem clock_set_to_timestamp_witness :
    ∃ s', Handler.system.call lateState (systemEventMsg 50 79) = some s'
      ∧ (Handler.system ∈ [Handler.system, Handler.add, Handler.exec, Handler.execPrice] →
          s'.CURRTIME = field (systemEventMsg 50 79) 5 6
          ∧ (lateState.CURRTIME ≤ s'.CURRTIME
              ↔ lateState.CURRTIME ≤ field (systemEventMsg 50 79) 5 6))
      ∧ (Handler.system ∉ [Handler.system, Handler.add, Handler.exec, Handler.execPrice] →
          s'.CURRTIME = lateState.CURRTIME) :=
  clock_set_to_timestamp Handler.system lateState (systemEventMsg 50 79) (by decide)

/-- C14: after `systemMsg` the end flag is true if and only if it was already
true or the event-code byte at offset 11 is `'E'`; no handler call changes the
end flag from true to false, so once it is set it stays set along every
sequence of handler calls. -/
theorem end_flag_latches (k : Handler) (s : State) (msg : List Byte)
    (calls : List (Handler × List Byte)) :
    (13 ≤ msg.length → ∃ s', systemMsg s msg = some s'
        ∧ (s'.END = true ↔ (s.END = true ∨ msg[11]? = some 69)))
    ∧ (∀ s', k.call s msg = some s' → s.END = true → s'.END = true)
    ∧ (∀ s', run s calls = some s' → s.END = true → s'.END = true) := by
  refine ⟨?_, ?_, ?_⟩
  · intro hlen
    refine ⟨_, systemMsg_eq s msg hlen, ?_⟩
    by_cases hc : msg[11]? = some 69
    · simp [hc]
    · simp [hc]
  · intro s' h he
    exact call_END k s s' msg h he
  · intro s' h he
    exact run_invariant (fun t => t.END = true) (fun _ => True)
      (fun c t t' _ ht hcall => call_END c.1 t t' c.2 hcall ht) calls (fun _ _ => trivial)
      s s' he h

/-- C14 at a system event with code `'E'` from the initial state, and at a
sequence of calls from a state whose flag is already set. -/
theorem end_flag_latches_witness :
    (∃ s', systemMsg State.init (systemEventMsg 50 69) = some s' ∧ s'.END = true)
    ∧ (∃ s', Handler.add.call endedState (addMsg 5 0 100 66 500 12300) = some s'
        ∧ s'.END = true)
    ∧ (∃ s', run endedState
          [(Handler.system, systemEventMsg 50 79), (Handler.add, addMsg 5 0 100 66 500 12300),
            (Handler.exec, execMsg 5 0 100 500)] = some s'
        ∧ s'.END = true) := by
  have hw := end_flag_latches Handler.add State.init (systemEventMsg 50 69) []
  have hv := end_flag_latches Handler.add endedState (addMsg 5 0 100 66 500 12300)
    [(Handler.system, systemEventMsg 50 79), (Handler.add, addMsg 5 0 100 66 500 12300),
      (Handler.exec, execMsg 5 0 100 500)]
  refine ⟨?_, ?_, ?_⟩
  · obtain ⟨s', h1, h2⟩ := hw.1 (by decide)
    exact ⟨s', h1, h2.2 (Or.inr (by decide))⟩
  · obtain ⟨s', h1⟩ := call_isSome Handler.add endedState (addMsg 5 0 100 66 500 12300)
      (by decide)
    exact ⟨s', h1, hv.2.1 s' h1 rfl⟩
  · obtain ⟨s', h1⟩ := run_isSome
      [(Handler.system, systemEventMsg 50 79), (Handler.add, addMsg 5 0 100 66 500 12300),
        (Handler.exec, execMsg 5 0 100 500)] (by decide) endedState
    exact ⟨s', h1, hv.2.2 s' h1 rfl⟩

/-! ## C17: unknown order reference, the whole state -/

theorem erase_absent (m : OrderId → Option Order) (k : OrderId) (h : m k = none) :
    erase m k = m := by
  funext j
  by_cases hj : j = k
  · simp [erase, hj, h]
  · simp [erase, hj]

/-- C17 as stated fails: an Execute message stamped 55 that references the
absent id 8 changes the clock from 0 to 55, so the state after the handler is
not the state before it. -/
theorem exec_absent_clock_counterexample :
    restingState.allBuyOrders (field (execMsg 1 55 8 40) 11 8) = none
    ∧ restingState.CURRTIME = 0
    ∧ (orderExec restingState (execMsg 1 55 8 40)).map (fun s' => s'.CURRTIME) = some 55
    ∧ orderExec restingState (execMsg 1 55 8 40) ≠ some restingState := by
  have h3 : (orderExec restingState (execMsg 1 55 8 40)).map (fun s' => s'.CURRTIME)
      = some 55 := by decide
  refine ⟨by decide, rfl, h3, ?_⟩
  intro h
  rw [h] at h3
  exact absurd h3 (by decide)

/-- C17, amended: on an absent order identifier Cancel, Delete and Replace
return the session state unchanged; Execute and ExecutePrice return the session
state with currentTime set to the message's timestamp (field at 5) and
everything else (end flag, directory, order book, every ledger) unchanged. -/
theorem absent_reference_frame (s : State) (msg : List Byte)
    (ha : s.allBuyOrders (field msg 11 8) = none) :
    (23 ≤ msg.length → orderCancel s msg = some s)
    ∧ (19 ≤ msg.length → orderDelete s msg = some s)
    ∧ (35 ≤ msg.length → orderReplace s msg = some s)
    ∧ (23 ≤ msg.length → orderExec s msg = some { s with CURRTIME := field msg 5 6 })
    ∧ (36 ≤ msg.length →
        orderExecPrice s msg = some { s with CURRTIME := field msg 5 6 }) := by
  refine ⟨?_, ?_, ?_, ?_, ?_⟩
  · intro hlen
    exact orderCancel_absent s msg hlen ha
  · intro hlen
    rw [orderDelete_eq s msg hlen, erase_absent _ _ ha]
  · intro hlen
    exact orderReplace_absent s msg hlen ha
  · intro hlen
    exact orderExec_absent s msg hlen ha
  · intro hlen
    exact orderExecPrice_absent s msg hlen ha

/-- C17 (amended) at order 7 resting and messages that reference the absent id 8. -/
theorem absent_reference_frame_witness :
    orderCancel restingState (cancelMsg 1 55 8 40) = some restingState
    ∧ orderDelete restingState (deleteMsg 1 55 8) = some restingState
    ∧ orderReplace restingState (replaceMsg 1 55 8 9 150 900) = some restingState
    ∧ orderExec restingState (execMsg 1 55 8 40)
        = some { restingState with CURRTIME := field (execMsg 1 55 8 40) 5 6 }
    ∧ orderExecPrice restingState (execPriceMsg 1 55 8 40 99)
        = some { restingState with CURRTIME := field (execPriceMsg 1 55 8 40 99) 5 6 } :=
  ⟨(absent_reference_frame restingState (cancelMsg 1 55 8 40) (by decide)).1 (by decide),
   (absent_reference_frame restingState (deleteMsg 1 55 8) (by decide)).2.1 (by decide),
   (absent_reference_frame restingState (replaceMsg 1 55 8 9 150 900) (by decide)).2.2.1
      (by decide),
   (absent_reference_frame restingState (execMsg 1 55 8 40) (by decide)).2.2.2.1 (by decide),
   (absent_reference_frame restingState (execPriceMsg 1 55 8 40 99) (by decide)).2.2.2.2
      (by decide)⟩

/-! ## C18: which ledger an execution goes to -/

/-- C18 as stated fails: with order 7 resting under locate 1, an Execute
message for id 7 that carries locate 9 appends the record to the ledger of
locate 9, labelled 9; the ledger of locate 1 stays empty. -/
theorem exec_ledger_locate_counterexample :
    restingState.allBuyOrders (field (execMsg 9 0 7 40) 11 8) = some ⟨10, 100, 1⟩
    ∧ field (execMsg 9 0 7 40) 1 2 = 9
    ∧ (orderExec restingState (execMsg 9 0 7 40)).map
          (fun s' => (s'.attributedBuyOrders 1, s'.attributedBuyOrders 9))
        = some ([], [⟨10, 40, 9⟩])
    ∧ ¬ (∀ s', orderExec restingState (execMsg 9 0 7 40) = some s' →
          s'.attributedBuyOrders 1 = restingState.attributedBuyOrders 1 ++ [⟨10, 40, 1⟩]) := by
  refine ⟨by decide, by decide, by decide, ?_⟩
  intro h
  have hp : restingState.allBuyOrders (field (execMsg 9 0 7 40) 11 8) = some ⟨10, 100, 1⟩ := by
    decide
  have h2 := h _ (orderExec_present restingState (execMsg 9 0 7 40) _ (by decide) hp)
  exact absurd h2 (by decide)

/-- C18, amended: when the referenced order id is present, an Execute or
ExecutePrice message appends its record to the ledger of the locate that the
message itself carries at offset 1, and the record's locate field is that
value, whatever the locate of the resting order; no other ledger changes. -/
theorem exec_ledger_locate (s : State) (msg : List Byte) (o : Order)
    (hp : s.allBuyOrders (field msg 11 8) = some o) :
    (23 ≤ msg.length → ∃ s' r, orderExec s msg = some s'
        ∧ s'.attributedBuyOrders (field msg 1 2)
            = s.attributedBuyOrders (field msg 1 2) ++ [r]
        ∧ r._id = field msg 1 2
        ∧ (∀ l, l ≠ field msg 1 2 → s'.attributedBuyOrders l = s.attributedBuyOrders l))
    ∧ (36 ≤ msg.length → ∃ s' r, orderExecPrice s msg = some s'
        ∧ s'.attributedBuyOrders (field msg 1 2)
            = s.attributedBuyOrders (field msg 1 2) ++ [r]
        ∧ r._id = field msg 1 2
        ∧ (∀ l, l ≠ field msg 1 2 → s'.attributedBuyOrders l = s.attributedBuyOrders l)) := by
  constructor
  · intro hlen
    refine ⟨_, ⟨o._price, field msg 19 4, field msg 1 2⟩, orderExec_present s msg o hlen hp,
      by simp [push_back], rfl, ?_⟩
    intro l hl
    simp [push_back, hl]
  · intro hlen
    refine ⟨_, ⟨field msg 32 4, field msg 19 4, field msg 1 2⟩,
      orderExecPrice_present s msg o hlen hp, by simp [push_back], rfl, ?_⟩
    intro l hl
    simp [push_back, hl]

/-- C18 (amended) at order 7 resting under locate 1 and messages carrying locate 9. -/
theorem exec_ledger_locate_witness :
    (∃ s' r, orderExec restingState (execMsg 9 0 7 40) = some s'
        ∧ s'.attributedBuyOrders (field (execMsg 9 0 7 40) 1 2)
            = restingState.attributedBuyOrders (field (execMsg 9 0 7 40) 1 2) ++ [r]
        ∧ r._id = field (execMsg 9 0 7 40) 1 2
        ∧ (∀ l, l ≠ field (execMsg 9 0 7 40) 1 2 →
            s'.attributedBuyOrders l = restingState.attributedBuyOrders l))
    ∧ (∃ s' r, orderExecPrice restingState (execPriceMsg 9 0 7 40 99) = some s'
        ∧ s'.attributedBuyOrders (field (execPriceMsg 9 0 7 40 99) 1 2)
            = restingState.attributedBuyOrders (field (execPriceMsg 9 0 7 40 99) 1 2) ++ [r]
        ∧ r._id = field (execPriceMsg 9 0 7 40 99) 1 2
        ∧ (∀ l, l ≠ field (execPriceMsg 9 0 7 40 99) 1 2 →
            s'.attributedBuyOrders l = restingState.attributedBuyOrders l)) :=
  ⟨(exec_ledger_locate restingState (execMsg 9 0 7 40) ⟨10, 100, 1⟩ (by decide)).1
      (by decide),
   (exec_ledger_locate restingState (execPriceMsg 9 0 7 40 99) ⟨10, 100, 1⟩ (by decide)).2
      (by decide)⟩

/-! ## C19, C20: ledgers -/

theorem call_ledger (k : Handler) (s s' : State) (msg : List Byte)
    (h : k.call s msg = some s') :
    s'.attributedBuyOrders = s.attributedBuyOrders
    ∨ (∃ r, r._id = field msg 1 2
        ∧ s'.attributedBuyOrders = push_back s.attributedBuyOrders (field msg 1 2) r)
    ∨ (k = Handler.stockRelated
        ∧ s'.attributedBuyOrders = setAt s.attributedBuyOrders (field msg 1 2) []) := by
  cases k <;> simp only [Handler.call] at h
  · rcases systemMsg_inv s s' msg h with ⟨rfl, -⟩ | ⟨rfl, -⟩ <;> exact Or.inl rfl
  · rw [stockRelatedMsg_inv s s' msg h]
    exact Or.inr (Or.inr ⟨rfl, rfl⟩)
  · rcases addOrder_inv s s' msg h with ⟨rfl, -⟩ | ⟨rfl, -⟩ <;> exact Or.inl rfl
  · rcases orderExec_inv s s' msg h with ⟨-, rfl⟩ | ⟨o, -, rfl⟩
    · exact Or.inl rfl
    · exact Or.inr (Or.inl ⟨_, rfl, rfl⟩)
  · rcases orderExecPrice_inv s s' msg h with ⟨-, rfl⟩ | ⟨o, -, rfl⟩
    · exact Or.inl rfl
    · exact Or.inr (Or.inl ⟨_, rfl, rfl⟩)
  · rcases orderCancel_inv s s' msg h with ⟨-, rfl⟩ | ⟨o, -, rfl⟩ <;> exact Or.inl rfl
  · rw [orderDelete_inv s s' msg h]
    exact Or.inl rfl
  · rcases orderReplace_inv s s' msg h with ⟨-, rfl⟩ | ⟨o, -, rfl⟩ <;> exact Or.inl rfl
  · rw [(trade_inv s s' msg).1 h]
    exact Or.inl rfl
  · rw [(trade_inv s s' msg).2.1 h]
    exact Or.inl rfl
  · rw [(trade_inv s s' msg).2.2 h]
    exact Or.inl rfl

theorem call_labelled (k : Handler) (s s' : State) (msg : List Byte)
    (hs : Labelled s.attributedBuyOrders) (h : k.call s msg = some s') :
    Labelled s'.attributedBuyOrders := by
  rcases call_ledger k s s' msg h with e | ⟨r, hr, e⟩ | ⟨-, e⟩
  · rw [e]
    exact hs
  · rw [e]
    intro l x hx
    by_cases hl : l = field msg 1 2
    · simp only [push_back, hl, if_true, List.mem_append, List.mem_singleton] at hx
      rcases hx with hx | hx
      · rw [hl]
        exact hs _ x hx
      · rw [hx, hr, hl]
    · simp only [push_back, hl, if_false] at hx
      exact hs l x hx
  · rw [e]
    intro l x hx
    by_cases hl : l = field msg 1 2
    · simp [setAt, hl] at hx
    · simp only [setAt, hl, if_false] at hx
      exact hs l x hx

/-- C19: under every handler other than the stock-directory handler, each
locate's ledger before the call is a prefix of its ledger after it, and either
no ledger changes or exactly one locate's ledger grows, by exactly one record
placed at its end. -/
theorem ledgers_append_only (k : Handler) (s : State) (msg : List Byte)
    (hk : k ≠ Handler.stockRelated) :
    (∀ s', k.call s msg = some s' →
      (∀ l, s.attributedBuyOrders l <+: s'.attributedBuyOrders l)
      ∧ (s'.attributedBuyOrders = s.attributedBuyOrders
        ∨ ∃ l r, s'.attributedBuyOrders l = s.attributedBuyOrders l ++ [r]
            ∧ ∀ j, j ≠ l → s'.attributedBuyOrders j = s.attributedBuyOrders j))
    ∧ (k.minLen ≤ msg.length → ∃ s', k.call s msg = some s') := by
  refine ⟨?_, call_isSome k s msg⟩
  intro s' h
  rcases call_ledger k s s' msg h with e | ⟨r, -, e⟩ | ⟨hk', -⟩
  · rw [e]
    exact ⟨fun l => List.prefix_refl _, Or.inl rfl⟩
  · rw [e]
    refine ⟨?_, Or.inr ⟨field msg 1 2, r, by simp [push_back], ?_⟩⟩
    · intro l
      by_cases hl : l = field msg 1 2
      · simp [push_back, hl]
      · simp [push_back, hl]
    · intro j hj
      simp [push_back, hj]
  · exact absurd hk' hk

/-- C19 at an Execute of the resting order 7: a call that does append. -/
theorem ledgers_append_only_witness :
    ∃ s', Handler.exec.call restingState (execMsg 1 0 7 40) = some s'
      ∧ (∀ l, restingState.attributedBuyOrders l <+: s'.attributedBuyOrders l)
      ∧ (s'.attributedBuyOrders = restingState.attributedBuyOrders
        ∨ ∃ l r, s'.attributedBuyOrders l = restingState.attributedBuyOrders l ++ [r]
            ∧ ∀ j, j ≠ l → s'.attributedBuyOrders j = restingState.attributedBuyOrders j) := by
  have hw := ledgers_append_only Handler.exec restingState (execMsg 1 0 7 40) (by decide)
  obtain ⟨s', h⟩ := hw.2 (by decide)
  exact ⟨s', h, hw.1 s' h⟩

/-- C20: in every state reached from the initial state by a finite sequence
of handler calls, every record stored in the ledger of locate `l` has its own
locate field equal to `l`. -/
theorem ledger_records_labelled (calls : List (Handler × List Byte)) :
    (∀ s, run State.init calls = some s →
      ∀ l r, r ∈ s.attributedBuyOrders l → r._id = l)
    ∧ ((∀ c ∈ calls, c.1.minLen ≤ c.2.length) → ∃ s, run State.init calls = some s) := by
  refine ⟨?_, fun hlen => run_isSome calls hlen State.init⟩
  intro s h
  have h0 : Labelled State.init.attributedBuyOrders := by
    intro l r hr
    simp [State.init] at hr
  exact run_invariant (fun t => Labelled t.attributedBuyOrders) (fun _ => True)
    (fun c t t' _ ht hcall => call_labelled c.1 t t' c.2 ht hcall) calls (fun _ _ => trivial)
    State.init s h0 h

/-- C20 at the sequence stock directory for locate 5, Add of order 100, Execute
of order 100 by a message carrying locate 5. -/
theorem ledger_records_labelled_witness :
    ∃ s, run State.init
        [(Handler.stockRelated, stockDirMsg 5 0 [65, 65, 80, 76, 32, 32, 32, 32]),
          (Handler.add, addMsg 5 0 100 66 500 12300), (Handler.exec, execMsg 5 0 100 500)]
        = some s
      ∧ ∀ l r, r ∈ s.attributedBuyOrders l → r._id = l := by
  have hw := ledger_records_labelled
    [(Handler.stockRelated, stockDirMsg 5 0 [65, 65, 80, 76, 32, 32, 32, 32]),
      (Handler.add, addMsg 5 0 100 66 500 12300), (Handler.exec, execMsg 5 0 100 500)]
  obtain ⟨s, h⟩ := hw.2 (by decide)
  exact ⟨s, h, hw.1 s h⟩

/-! ## C11: quantities of resting orders -/

theorem posBook_erase (m : OrderId → Option Order) (k : OrderId) (hm : PosBook m) :
    PosBook (erase m k) := by
  intro j o hj
  by_cases hjk : j = k
  · simp [erase, hjk] at hj
  · simp only [erase, hjk, if_false] at hj
    exact hm j o hj

theorem posBook_assign (m : OrderId → Option Order) (k : OrderId) (x : Order)
    (hm : PosBook m) (hx : 0 < x._qty ∧ x._qty < 2 ^ 32) : PosBook (assign m k x) := by
  intro j o hj
  by_cases hjk : j = k
  · simp only [assign, hjk, if_true] at hj
    cases hj
    exact hx
  · simp only [assign, hjk, if_false] at hj
    exact hm j o hj

theorem posBook_emplace (m : OrderId → Option Order) (k : OrderId) (x : Order)
    (hm : PosBook m) (hx : 0 < x._qty ∧ x._qty < 2 ^ 32) : PosBook (emplace m k x) := by
  intro j o hj
  by_cases hjk : j = k
  · simp only [emplace, hjk, if_true] at hj
    cases hmk : m k with
    | none =>
      rw [hmk] at hj
      cases hj
      exact hx
    | some old =>
      rw [hmk] at hj
      cases hj
      exact hm k _ hmk
  · simp only [emplace, hjk, if_false] at hj
    exact hm j o hj

theorem posBook_erase_assign (m : OrderId → Option Order) (k : OrderId) (x : Order)
    (hm : PosBook m) : PosBook (erase (assign m k x) k) := by
  intro j o hj
  by_cases hjk : j = k
  · simp [erase, hjk] at hj
  · simp only [erase, assign, hjk, if_false] at hj
    exact hm j o hj

theorem sub32_lt (q e : Nat) : sub32 q e < 2 ^ 32 :=
  Nat.mod_lt _ (by norm_num)

theorem sub32_pos (q e : Nat) (hq : q < 2 ^ 32) (he : e < 2 ^ 32) (hne : e ≠ q) :
    0 < sub32 q e := by
  rw [sub32_eq q e he]
  omega

theorem posBook_fill (m : OrderId → Option Order) (k : OrderId) (o : Order) (e : Nat)
    (hm : PosBook m) (hk : m k = some o) (he : e < 2 ^ 32) :
    PosBook (if e = o._qty then erase m k
      else assign m k { o with _qty := sub32 o._qty e }) := by
  by_cases heq : e = o._qty
  · rw [if_pos heq]
    exact posBook_erase m k hm
  · rw [if_neg heq]
    exact posBook_assign m k _ hm ⟨sub32_pos _ _ (hm k o hk).2 he heq, sub32_lt _ _⟩

theorem call_posBook (k : Handler) (s s' : State) (msg : List Byte)
    (hadd : k = Handler.add → msg[19]? = some 66 → field msg 20 4 ≠ 0)
    (hrep : k = Handler.replace → field msg 27 4 ≠ 0)
    (hs : PosBook s.allBuyOrders) (h : k.call s msg = some s') :
    PosBook s'.allBuyOrders := by
  cases k <;> simp only [Handler.call] at h
  · rcases systemMsg_inv s s' msg h with ⟨rfl, -⟩ | ⟨rfl, -⟩ <;> exact hs
  · rw [stockRelatedMsg_inv s s' msg h]
    exact hs
  · rcases addOrder_inv s s' msg h with ⟨rfl, hB⟩ | ⟨rfl, -⟩
    · exact posBook_emplace _ _ _ hs
        ⟨Nat.pos_of_ne_zero (hadd rfl hB), field4_lt msg 20⟩
    · exact hs
  · rcases orderExec_inv s s' msg h with ⟨-, rfl⟩ | ⟨o, ho, rfl⟩
    · exact hs
    · exact posBook_fill _ _ o _ hs ho (field4_lt msg 19)
  · rcases orderExecPrice_inv s s' msg h with ⟨-, rfl⟩ | ⟨o, ho, rfl⟩
    · exact hs
    · exact posBook_fill _ _ o _ hs ho (field4_lt msg 19)
  · rcases orderCancel_inv s s' msg h with ⟨-, rfl⟩ | ⟨o, ho, rfl⟩
    · exact hs
    · show PosBook (if sub32 o._qty (field msg 19 4) = 0 then _ else _)
      by_cases hz : sub32 o._qty (field msg 19 4) = 0
      · rw [if_pos hz]
        exact posBook_erase_assign _ _ _ hs
      · rw [if_neg hz]
        exact posBook_assign _ _ _ hs ⟨Nat.pos_of_ne_zero hz, sub32_lt _ _⟩
  · rw [orderDelete_inv s s' msg h]
    exact posBook_erase _ _ hs
  · rcases orderReplace_inv s s' msg h with ⟨-, rfl⟩ | ⟨o, -, rfl⟩
    · exact hs
    · exact posBook_emplace _ _ _ (posBook_erase _ _ hs)
        ⟨Nat.pos_of_ne_zero (hrep rfl), field4_lt msg 27⟩
  · rw [(trade_inv s s' msg).1 h]
    exact hs
  · rw [(trade_inv s s' msg).2.1 h]
    exact hs
  · rw [(trade_inv s s' msg).2.2 h]
    exact hs

/-- C11 as stated fails: from the initial state, a buy-side Add message for
order 7 whose quantity field is 0 leaves order 7 in the book with quantity 0. -/
theorem zero_quantity_add_counterexample :
    field (addMsg 1 0 7 66 0 10) 20 4 = 0
    ∧ (run State.init [(Handler.add, addMsg 1 0 7 66 0 10)]).map
          (fun s => s.allBuyOrders 7)
        = some (some ⟨10, 0, 1⟩)
    ∧ ¬ (∀ s k o, run State.init [(Handler.add, addMsg 1 0 7 66 0 10)] = some s →
          s.allBuyOrders k = some o → 0 < o._qty) := by
  refine ⟨by decide, by decide, ?_⟩
  intro h
  have h1 : run State.init [(Handler.add, addMsg 1 0 7 66 0 10)]
      = some { State.init with
          CURRTIME := field (addMsg 1 0 7 66 0 10) 5 6
          allBuyOrders := emplace State.init.allBuyOrders (field (addMsg 1 0 7 66 0 10) 11 8)
            ⟨field (addMsg 1 0 7 66 0 10) 32 4, field (addMsg 1 0 7 66 0 10) 20 4,
              field (addMsg 1 0 7 66 0 10) 1 2⟩ } := by
    simp only [run, Handler.call]
    rw [addOrder_buy State.init (addMsg 1 0 7 66 0 10) (by decide) (by decide)]
    rfl
  have h2 := h _ 7 ⟨10, 0, 1⟩ h1 (by decide)
  exact absurd h2 (by decide)

/-- C11, amended: in every state reached from the initial state by a finite
sequence of handler calls (in particular of Add, Execute, ExecutePrice, Cancel,
Delete and Replace messages) in which every buy-side Add and every Replace
carries a non-zero quantity, every entry present in the order book has a
strictly positive remaining quantity. -/
theorem book_quantities_positive (calls : List (Handler × List Byte))
    (hadd : ∀ c ∈ calls, c.1 = Handler.add → c.2[19]? = some 66 → field c.2 20 4 ≠ 0)
    (hrep : ∀ c ∈ calls, c.1 = Handler.replace → field c.2 27 4 ≠ 0) :
    (∀ s, run State.init calls = some s →
      ∀ k o, s.allBuyOrders k = some o → 0 < o._qty)
    ∧ ((∀ c ∈ calls, c.1.minLen ≤ c.2.length) → ∃ s, run State.init calls = some s) := by
  refine ⟨?_, fun hlen => run_isSome calls hlen State.init⟩
  intro s h k o hko
  have h0 : PosBook State.init.allBuyOrders := by
    intro j x hx
    simp [State.init] at hx
  have hP : PosBook s.allBuyOrders :=
    run_invariant (fun t => PosBook t.allBuyOrders)
      (fun c => (c.1 = Handler.add → c.2[19]? = some 66 → field c.2 20 4 ≠ 0)
        ∧ (c.1 = Handler.replace → field c.2 27 4 ≠ 0))
      (fun c t t' hc ht hcall => call_posBook c.1 t t' c.2 hc.1 hc.2 ht hcall) calls
      (fun c hc => ⟨hadd c hc, hrep c hc⟩) State.init s h0 h
  exact (hP k o hko).1

/-- C11 (amended) at the sequence Add(id 7, qty 100), Execute(id 7, qty 40),
Cancel(id 7, qty 10), Replace(old 7, new 8, qty 5). -/
theorem book_quantities_positive_witness :
    ∃ s, run State.init
        [(Handler.add, addMsg 1 0 7 66 100 10), (Handler.exec, execMsg 1 0 7 40),
          (Handler.cancel, cancelMsg 1 0 7 10), (Handler.replace, replaceMsg 1 0 7 8 5 10)]
        = some s
      ∧ ∀ k o, s.allBuyOrders k = some o → 0 < o._qty := by
  have hw := book_quantities_positive
    [(Handler.add, addMsg 1 0 7 66 100 10), (Handler.exec, execMsg 1 0 7 40),
      (Handler.cancel, cancelMsg 1 0 7 10), (Handler.replace, replaceMsg 1 0 7 8 5 10)]
    (by decide) (by decide)
  obtain ⟨s, h⟩ := hw.2 (by decide)
  exact ⟨s, h, hw.1 s h⟩

end trex
